import Mathlib

/-!
# Verification of the `rebytes` slab allocator core

Shallow embedding of the slab / slab-ring byte allocator:

* `Span`, `Slab.allocate`, `Slab.free` embed `src/slab.rs`
* the ring (`SlabRing.allocate`, `new_slab`, `iter`) embeds `src/slabring.rs`
* `Allocator.allocate` and `Allocation.global` embed `src/allocator.rs` and
  `src/allocation.rs`.

Sizes and offsets are modelled as unbounded natural numbers: every size that
reaches a slab through the public surface is below the configured slab size,
far from `usize` overflow.  Locks always succeed in the sequential model
(`try_lock` failure only makes the ring skip a slab; the claims under
verification quantify over the sequential interleavings).
-/

namespace Rebytes

/-- A run of consecutive free stripes (`struct Span` in `slab.rs`):
`offset` in bytes from the slab base, length in stripes. -/
structure Span where
  offset : Nat
  stripes : Nat
deriving DecidableEq, Repr

/-- Rust `Span::end` in `slab.rs`: `offset + stripes * minimum_allocation_size`.
(`end` is a Lean keyword, hence the name.) -/
def Span.spanEnd (s : Span) (minimum_allocation_size : Nat) : Nat :=
  s.offset + s.stripes * minimum_allocation_size

/-- Membership of a byte index in the half-open range `[o, o + l)`. -/
def inR (o l x : Nat) : Prop := o ≤ x ∧ x < o + l

instance (o l x : Nat) : Decidable (inR o l x) := by
  unfold inR; exact inferInstance

/-- The byte ranges `[o1, o1+l1)` and `[o2, o2+l2)` are disjoint
(an empty range is disjoint from everything). -/
def rdisj (o1 l1 o2 l2 : Nat) : Prop :=
  l1 = 0 ∨ l2 = 0 ∨ o1 + l1 ≤ o2 ∨ o2 + l2 ≤ o1

instance (o1 l1 o2 l2 : Nat) : Decidable (rdisj o1 l1 o2 l2) := by
  unfold rdisj; exact inferInstance

theorem rdisj_iff (o1 l1 o2 l2 : Nat) :
    rdisj o1 l1 o2 l2 ↔ ∀ x, inR o1 l1 x → ¬ inR o2 l2 x := by
  constructor
  · rintro (h | h | h | h) x ⟨hx1, hx2⟩ ⟨hy1, hy2⟩ <;> omega
  · intro h
    by_cases h1 : l1 = 0
    · exact Or.inl h1
    by_cases h2 : l2 = 0
    · exact Or.inr (Or.inl h2)
    rcases Nat.lt_or_ge (o1 + l1) (o2 + 1) with hlt | hge
    · exact Or.inr (Or.inr (Or.inl (by omega)))
    · rcases Nat.lt_or_ge (o2 + l2) (o1 + 1) with hlt2 | hge2
      · exact Or.inr (Or.inr (Or.inr (by omega)))
      · exfalso
        exact h (max o1 o2) ⟨Nat.le_max_left _ _, by omega⟩
          ⟨Nat.le_max_right _ _, by omega⟩

theorem rdisj_symm {o1 l1 o2 l2 : Nat} (h : rdisj o1 l1 o2 l2) :
    rdisj o2 l2 o1 l1 := by
  unfold rdisj at h ⊢; tauto

/-- Disjointness of two free spans, as byte ranges, for stripe size `S`. -/
def spanDisj (S : Nat) (a b : Span) : Prop :=
  rdisj a.offset (a.stripes * S) b.offset (b.stripes * S)

instance (S : Nat) (a b : Span) : Decidable (spanDisj S a b) := by
  unfold spanDisj; exact inferInstance

/-- Rust `stripes_needed` in `Slab::allocate`:
`(length + (minimum_allocation_size - 1)) / minimum_allocation_size`. -/
def stripesNeeded (S length : Nat) : Nat := (length + (S - 1)) / S

/-- The running best candidate of the `Slab::allocate` scan
(`struct BestSpan`). -/
structure BestSpan where
  index : Nat
  extra_stripes : Nat
deriving DecidableEq, Repr

/-- The best-fit scan of `Slab::allocate`: walk the spans, keep the span with
the fewest extra stripes (`checked_sub` filters the ones that do not fit, a
strictly better candidate replaces the running best, a perfect fit stops the
scan). `i` is the index of the head of `spans` in the full list. -/
def findBestAux (needed : Nat) : List Span → Nat → Option BestSpan → Option BestSpan
  | [], _, best => best
  | s :: rest, i, best =>
    if needed ≤ s.stripes then
      let extra := s.stripes - needed
      if (match best with
          | none => true
          | some b => decide (extra < b.extra_stripes)) then
        if extra = 0 then some ⟨i, 0⟩
        else findBestAux needed rest (i + 1) (some ⟨i, extra⟩)
      else findBestAux needed rest (i + 1) best
    else findBestAux needed rest (i + 1) best

/-- The span selected by the scan in `Slab::allocate`, if any. -/
def findBest (needed : Nat) (spans : List Span) : Option BestSpan :=
  findBestAux needed spans 0 none

/-- Rust `Slab::allocate` on the free-span list: returns
`(allocation offset, allocation length in bytes, new free-span list)`.
The chosen span is carved from the front: its stripe count drops by
`stripes_needed`, its offset advances by the allocated length, and it is
removed when it becomes empty. -/
def slabAllocate (S : Nat) (spans : List Span) (length : Nat) :
    Option (Nat × Nat × List Span) :=
  let needed := stripesNeeded S length
  match findBest needed spans with
  | none => none
  | some best =>
    match spans[best.index]? with
    | none => none
    | some span =>
      let allocated_length := needed * S
      let newSpan : Span :=
        ⟨span.offset + allocated_length, span.stripes - needed⟩
      let spans' :=
        if newSpan.stripes = 0 then spans.eraseIdx best.index
        else spans.set best.index newSpan
      some (span.offset, allocated_length, spans')

/-- Rust `Slab::merge_next_span_if_possible`, specialised to the point where the
span at `index` has just become the head `m` of the remaining list: if the
following span starts exactly at the end of `m`, absorb it. -/
def mergeHead (S : Nat) (m : Span) : List Span → List Span
  | [] => [m]
  | n :: rest =>
    if n.offset = m.spanEnd S then ⟨m.offset, m.stripes + n.stripes⟩ :: rest
    else m :: n :: rest

/-- Rust `Slab::free` on the free-span list: walk the list in order; merge the
freed span into the first span it touches (extending it on the left or on the
right, then absorbing the next span if the merge made them contiguous), or
insert it before the first span that starts after it; append at the end if
the walk finds no place. -/
def freeSpans (S : Nat) (freed : Span) : List Span → List Span
  | [] => [freed]
  | s :: rest =>
    if s.offset < freed.offset ∧ s.spanEnd S = freed.offset then
      mergeHead S ⟨s.offset, s.stripes + freed.stripes⟩ rest
    else if freed.offset < s.offset then
      if s.offset = freed.spanEnd S then
        mergeHead S ⟨freed.offset, s.stripes + freed.stripes⟩ rest
      else
        freed :: s :: rest
    else
      s :: freeSpans S freed rest

/-- Rust `Slab::new`: a single free span covering `length / S` stripes. -/
def slabNew (S length : Nat) : List Span := [⟨0, length / S⟩]

/-! ## A single slab as a state machine

`SlabMachine` records the free-span list of the slab together with the live
allocations handed out of it (offset and byte length), so that the
invariants relating the two can be stated.  The operations are exactly the
two mutators of `slab.rs`: `Slab::allocate` and the `Slab::free` performed
by `Allocation::drop`. -/

/-- The mutable state of a slab plus the live allocations carved out of it.
`allocs` lists `(offset, length in bytes)` pairs, most recent first. -/
structure SlabMachine where
  spans : List Span
  allocs : List (Nat × Nat)
deriving DecidableEq, Repr

/-- One operation on a slab: an `allocate` call, or the drop (free) of the
`i`-th live allocation. -/
inductive SlabOp where
  | alloc (length : Nat)
  | free (i : Nat)
deriving DecidableEq, Repr

/-- Step the slab state by one operation.  A failed `allocate` and a `free`
of a non-existent allocation leave the state unchanged. -/
def slabStep (S : Nat) (m : SlabMachine) : SlabOp → SlabMachine
  | .alloc length =>
    match slabAllocate S m.spans length with
    | none => m
    | some (off, len, spans') => ⟨spans', (off, len) :: m.allocs⟩
  | .free i =>
    match m.allocs[i]? with
    | none => m
    | some (off, len) =>
      ⟨freeSpans S ⟨off, len / S⟩ m.spans, m.allocs.eraseIdx i⟩

/-- Run a sequence of operations on a freshly created slab of `L` bytes with
stripe size `S`. -/
def runSlab (S L : Nat) (ops : List SlabOp) : SlabMachine :=
  ops.foldl (slabStep S) ⟨slabNew S L, []⟩

/-- Disjointness of the byte ranges of two allocations. -/
def allocDisj (a b : Nat × Nat) : Prop := rdisj a.1 a.2 b.1 b.2

instance (a b : Nat × Nat) : Decidable (allocDisj a b) := by
  unfold allocDisj; exact inferInstance

/-- The disjointness invariant of claim C1: live allocations are pairwise
disjoint, disjoint from every free span, and the free spans are pairwise
disjoint. -/
def disjInv (S : Nat) (m : SlabMachine) : Prop :=
  m.allocs.Pairwise allocDisj ∧
  (∀ a ∈ m.allocs, ∀ s ∈ m.spans, rdisj a.1 a.2 s.offset (s.stripes * S)) ∧
  m.spans.Pairwise (spanDisj S)

/-- Well-formedness of a free-span list (claim C2): every span is
stripe-aligned, non-empty and within `bound`, and each span ends strictly
before the next begins (sorted, disjoint, maximally coalesced). -/
def freeListWF (S bound : Nat) (l : List Span) : Prop :=
  (∀ s ∈ l, S ∣ s.offset ∧ 1 ≤ s.stripes ∧ s.spanEnd S ≤ bound) ∧
  l.Pairwise (fun a b => a.spanEnd S < b.offset)

/-- The full inductive invariant of a slab: a well-formed free list plus
stripe-aligned, non-empty, in-bounds, pairwise disjoint live allocations
that are disjoint from every free span. -/
def slabWF (S bound : Nat) (m : SlabMachine) : Prop :=
  freeListWF S bound m.spans ∧
  (∀ a ∈ m.allocs, S ∣ a.1 ∧ S ∣ a.2 ∧ 1 ≤ a.2 ∧ a.1 + a.2 ≤ bound) ∧
  m.allocs.Pairwise allocDisj ∧
  (∀ a ∈ m.allocs, ∀ s ∈ m.spans, rdisj a.1 a.2 s.offset (s.stripes * S))

/-- An operation with a positive request size (every `free` qualifies). -/
def SlabOp.positiveRequest : SlabOp → Prop
  | .alloc length => 1 ≤ length
  | .free _ => True

instance (op : SlabOp) : Decidable op.positiveRequest := by
  cases op <;> (unfold SlabOp.positiveRequest; exact inferInstance)

/-- What the scan in `Slab::allocate` promises about its chosen span (claim C7):
the span at the returned index fits, its residual is recorded, it minimises
the residual over all fitting spans, and it is the first span in list order
attaining that minimum. -/
def BestSpec (needed : Nat) (spans : List Span) (r : BestSpan) : Prop :=
  (∃ s, spans[r.index]? = some s ∧ needed ≤ s.stripes ∧
    r.extra_stripes = s.stripes - needed) ∧
  (∀ (j : Nat) (t : Span), spans[j]? = some t → needed ≤ t.stripes →
    r.extra_stripes ≤ t.stripes - needed) ∧
  (∀ j, j < r.index → ∀ t : Span, spans[j]? = some t → needed ≤ t.stripes →
    r.extra_stripes < t.stripes - needed)

/-! ## The slab ring and the public allocator

Embedding of `slabring.rs` and `allocator.rs`.  A ring state is the list of
slab free-span lists plus the rotating cursor (`cycle`).  The unbounded Rust
`loop` in `SlabRing::allocate` is modelled with explicit fuel: a result of
`none` in the first component means the fuel ran out (the loop did not
terminate within `fuel` rounds), `some outcome` means the loop returned. -/

/-- Rust `Config` in `allocator.rs`. -/
structure Config where
  minimum_allocation_size : Nat
  maximum_allocation_size : Nat
  memory_limit : Option Nat
  slab_size : Nat
deriving DecidableEq, Repr

/-- Rust `Config::default()`. -/
def Config.base : Config := ⟨16, 16 * 1024, none, 256 * 1024⟩

/-- The clamp performed by `Config::finish`: `maximum_allocation_size` is
lowered to `slab_size` when it exceeds it. -/
def Config.finishClamp (c : Config) : Config :=
  if c.slab_size < c.maximum_allocation_size then
    { c with maximum_allocation_size := c.slab_size }
  else c

/-- The shared state of `SlabRing`: the slab list (each slab represented by
its free-span list) and the rotating cursor. -/
structure RingState where
  entries : List (List Span)
  cycle : Nat
deriving DecidableEq, Repr

/-- Rust `SlabRing::new_slab`: under the write lock, re-check
`entries.len() * slab_size < limit` (or proceed unconditionally without a
cap), then construct a slab and append it.  Returns the index of the new
slab, or `none` if the cap forbids growing. -/
def ringNewSlab (c : Config) (st : RingState) : Option Nat × RingState :=
  if (match c.memory_limit with
      | none => true
      | some limit => decide (st.entries.length * c.slab_size < limit)) then
    (some st.entries.length,
      { st with
        entries :=
          st.entries ++ [slabNew c.minimum_allocation_size c.slab_size] })
  else
    (none, st)

/-- The start-index selection of `SlabRing::iter`: an empty list gives start
`0` and leaves the cursor alone; otherwise the cursor is rotated backwards by
one (`checked_sub(1).unwrap_or(len - 1)`) and the new value is the start. -/
def ringIter (st : RingState) : Nat × RingState :=
  if st.entries.length = 0 then
    (0, st)
  else
    let next :=
      match st.cycle with
      | 0 => st.entries.length - 1
      | c + 1 => c
    (next, { st with cycle := next })

/-- Rust `SlabRingIter::next` on the abstract iterator state `(len, start, pos)`:
returns the emitted index and the new position, or `none` once a full lap is
complete (or the list is empty). -/
def iterNext (len start : Nat) (position : Option Nat) : Option (Nat × Nat) :=
  match position with
  | some p =>
    let nxt := if p + 1 = len then 0 else p + 1
    if nxt = start then none else some (nxt, nxt)
  | none =>
    if len = 0 then none else some (start, start)

/-- Unfold the iterator for at most `fuel` steps, collecting the emitted
indices. -/
def iterIndicesAux (len start : Nat) : Nat → Option Nat → List Nat
  | 0, _ => []
  | fuel + 1, pos =>
    match iterNext len start pos with
    | none => []
    | some (i, p) => i :: iterIndicesAux len start fuel (some p)

/-- The index order in which one `SlabRing::iter` pass visits the slab list
(`len` emissions exhaust the lap). -/
def iterIndices (len start : Nat) : List Nat := iterIndicesAux len start len none

/-- First phase of `SlabRing::allocate`: try `Slab::allocate` on each slab in
iteration order; the first success mutates that slab and returns
`(slab index, offset, length)`. -/
def tryExisting (S : Nat) (st : RingState) (length : Nat) :
    List Nat → Option ((Nat × Nat × Nat) × RingState)
  | [] => none
  | i :: rest =>
    match st.entries[i]? with
    | none => tryExisting S st length rest
    | some spans =>
      match slabAllocate S spans length with
      | some (off, len, spans') =>
        some ((i, off, len), { st with entries := st.entries.set i spans' })
      | none => tryExisting S st length rest

/-- The grow-and-retry `loop` of `SlabRing::allocate`, with explicit fuel:
create a new slab; if creation succeeds try to allocate from it and loop on
failure; if creation is refused return `none` to the caller.  The first
component is `none` when the fuel is exhausted. -/
def ringGrowLoop (c : Config) :
    Nat → RingState → Nat → Option (Option (Nat × Nat × Nat)) × RingState
  | 0, st, _ => (none, st)
  | fuel + 1, st, length =>
    match ringNewSlab c st with
    | (some i, st') =>
      match st'.entries[i]? with
      | none => (none, st')
      | some spans =>
        match slabAllocate c.minimum_allocation_size spans length with
        | some (off, len, spans') =>
          (some (some (i, off, len)),
            { st' with entries := st'.entries.set i spans' })
        | none => ringGrowLoop c fuel st' length
    | (none, st') => (some none, st')

/-- The fast-path eligibility test of `SlabRing::allocate`:
`length < maximum_allocation_size` (strict). -/
def fastPathEligible (c : Config) (length : Nat) : Bool :=
  decide (length < c.maximum_allocation_size)

/-- Rust `SlabRing::allocate`: reject ineligible sizes immediately; otherwise try
every existing slab starting from the rotated cursor, then enter the
grow-and-retry loop. -/
def ringAllocate (c : Config) (fuel : Nat) (st : RingState) (length : Nat) :
    Option (Option (Nat × Nat × Nat)) × RingState :=
  if fastPathEligible c length then
    let (start, st1) := ringIter st
    match tryExisting c.minimum_allocation_size st1 length
        (iterIndices st1.entries.length start) with
    | some (a, st2) => (some (some a), st2)
    | none => ringGrowLoop c fuel st1 length
  else
    (some none, st)

/-- Rust `SlabRing::allocate` terminates on this input: some fuel suffices for the
grow-and-retry loop to return. -/
def ringAllocateTerminates (c : Config) (st : RingState) (length : Nat) : Prop :=
  ∃ fuel, (ringAllocate c fuel st length).1.isSome

/-- The owning handle returned to callers (`Allocation` in `allocation.rs`):
either slab-backed (slab index, offset, length) or process-allocator-backed. -/
inductive Allocation where
  | slabBacked (slabIdx offset length : Nat)
  | globalBacked (length : Nat)
deriving DecidableEq, Repr

/-- Rust `Allocation::len`. -/
def Allocation.len : Allocation → Nat
  | .slabBacked _ _ l => l
  | .globalBacked l => l

/-- Rust `Allocation::global(size)`: a process-allocator-backed allocation of
exactly `size` bytes. -/
def Allocation.global (size : Nat) : Allocation := .globalBacked size

/-- Rust `Allocator::allocate`: take the allocation from the ring if it serves the
request, otherwise fall back to `Allocation::global`.  `none` only when the
modelling fuel for the loop of the ring ran out. -/
def allocatorAllocate (c : Config) (fuel : Nat) (st : RingState)
    (length : Nat) : Option (Allocation × RingState) :=
  match ringAllocate c fuel st length with
  | (some (some (i, off, len)), st') => some (.slabBacked i off len, st')
  | (some none, st') => some (.global length, st')
  | (none, _) => none

/-- One operation on the ring: a `SlabRing::allocate` call (with the fuel
bounding its internal loop) or a bare `SlabRing::new_slab` call. -/
inductive RingOp where
  | allocate (length fuel : Nat)
  | newSlab
deriving DecidableEq, Repr

/-- Step the ring state by one operation. -/
def ringStep (c : Config) (st : RingState) : RingOp → RingState
  | .allocate length fuel => (ringAllocate c fuel st length).2
  | .newSlab => (ringNewSlab c st).2

/-- Run a sequence of ring operations from the freshly constructed ring
(empty slab list, cursor 0, as in `SlabRing::new`). -/
def runRing (c : Config) (ops : List RingOp) : RingState :=
  ops.foldl (ringStep c) ⟨[], 0⟩

/-- The cursor invariant: the stored cycle is zero or in bounds. -/
def cycleInv (st : RingState) : Prop :=
  st.cycle = 0 ∨ st.cycle < st.entries.length

instance (st : RingState) : Decidable (cycleInv st) := by
  unfold cycleInv; exact inferInstance

/-! ## List and range utilities -/

theorem getElem?_split {α : Type _} :
    ∀ (l : List α) (i : Nat) (a : α), l[i]? = some a →
      ∃ pre post, l = pre ++ a :: post ∧ pre.length = i := by
  intro l
  induction l with
  | nil => intro i a h; simp at h
  | cons x t ih =>
    intro i a h
    cases i with
    | zero =>
      simp at h
      exact ⟨[], t, by simp [h], rfl⟩
    | succ n =>
      simp at h
      obtain ⟨pre, post, hsplit, hlen⟩ := ih n a h
      exact ⟨x :: pre, post, by simp [hsplit], by simp [hlen]⟩

theorem set_split {α : Type _} (pre post : List α) (a b : α) :
    (pre ++ a :: post).set pre.length b = pre ++ b :: post := by
  induction pre with
  | nil => rfl
  | cons x t ih => simp [ih]

theorem eraseIdx_split {α : Type _} (pre post : List α) (a : α) :
    (pre ++ a :: post).eraseIdx pre.length = pre ++ post := by
  induction pre with
  | nil => rfl
  | cons x t ih => simpa using ih

theorem getElem?_append_length {α : Type _} (pre post : List α) (a : α) :
    (pre ++ a :: post)[pre.length]? = some a := by
  induction pre with
  | nil => simp
  | cons x t ih => simpa using ih

theorem rdisj_mono {o1 l1 o1' l1' o2 l2 : Nat}
    (h : ∀ x, inR o1 l1 x → inR o1' l1' x) (hd : rdisj o1' l1' o2 l2) :
    rdisj o1 l1 o2 l2 :=
  (rdisj_iff _ _ _ _).2 fun x hx => (rdisj_iff _ _ _ _).1 hd x (h x hx)

theorem rdisj_mono_right {o1 l1 o2 l2 o2' l2' : Nat}
    (h : ∀ x, inR o2 l2 x → inR o2' l2' x) (hd : rdisj o1 l1 o2' l2') :
    rdisj o1 l1 o2 l2 :=
  rdisj_symm (rdisj_mono h (rdisj_symm hd))

/-- Merging two contiguous spans yields the union of their ranges. -/
theorem span_union_mem (S : Nat) (m n : Span) (h : n.offset = m.spanEnd S)
    (x : Nat) :
    inR m.offset ((m.stripes + n.stripes) * S) x ↔
      inR m.offset (m.stripes * S) x ∨ inR n.offset (n.stripes * S) x := by
  unfold Span.spanEnd at h
  unfold inR
  rw [Nat.add_mul]
  omega

/-! ## The best-fit scan -/

theorem findBestAux_spec (needed : Nat) (spans : List Span) :
    ∀ (l : List Span) (i : Nat) (best : Option BestSpan),
      (∀ k : Nat, l[k]? = spans[i + k]?) →
      (match best with
       | none =>
          ∀ j, j < i → ∀ t : Span, spans[j]? = some t → t.stripes < needed
       | some b =>
          b.index < i ∧ 0 < b.extra_stripes ∧
          (∃ s, spans[b.index]? = some s ∧ needed ≤ s.stripes ∧
            b.extra_stripes = s.stripes - needed) ∧
          (∀ j, j < i → ∀ t : Span, spans[j]? = some t →
            needed ≤ t.stripes → b.extra_stripes ≤ t.stripes - needed) ∧
          (∀ j, j < b.index → ∀ t : Span, spans[j]? = some t →
            needed ≤ t.stripes → b.extra_stripes < t.stripes - needed)) →
      (∀ r, findBestAux needed l i best = some r → BestSpec needed spans r) ∧
      (findBestAux needed l i best = none →
        ∀ (j : Nat) (t : Span), spans[j]? = some t → t.stripes < needed) := by
  intro l
  induction l with
  | nil =>
    intro i best hl hb
    have hout : ∀ (j : Nat) (t : Span), spans[j]? = some t → j < i := by
      intro j t hj
      by_contra hji
      have hk := hl (j - i)
      rw [show i + (j - i) = j by omega] at hk
      rw [hj] at hk
      simp at hk
    constructor
    · intro r hr
      simp only [findBestAux] at hr
      cases best with
      | none => exact absurd hr (by simp)
      | some b =>
        rw [Option.some_inj] at hr
        subst hr
        obtain ⟨hlt, hpos, hat, hmin, hfirst⟩ := hb
        refine ⟨hat, ?_, hfirst⟩
        intro j t hj ht
        exact hmin j (hout j t hj) t hj ht
    · intro hr j t hj
      simp only [findBestAux] at hr
      cases best with
      | some b => exact absurd hr (by simp)
      | none => exact hb j (hout j t hj) t hj
  | cons s rest ih =>
    intro i best hl hb
    have hs : spans[i]? = some s := by
      have := hl 0
      simpa using this.symm
    have hrest : ∀ k : Nat, rest[k]? = spans[i + 1 + k]? := by
      intro k
      have := hl (k + 1)
      simpa [Nat.add_comm, Nat.add_left_comm, Nat.add_assoc] using this
    cases best with
    | none =>
      by_cases hfit : needed ≤ s.stripes
      · by_cases hzero : s.stripes - needed = 0
        · -- perfect fit found with no previous candidate: break
          have step : findBestAux needed (s :: rest) i none = some ⟨i, 0⟩ := by
            simp [findBestAux, hfit, hzero]
          rw [step]
          constructor
          · intro r hr
            rw [Option.some_inj] at hr
            subst hr
            refine ⟨⟨s, hs, hfit, hzero.symm⟩, ?_, ?_⟩
            · intro j t hjt hfitt
              show (0 : Nat) ≤ t.stripes - needed
              omega
            · intro j hj t hjt hfitt
              have hj' : j < i := hj
              have := hb j hj' t hjt
              show (0 : Nat) < t.stripes - needed
              omega
          · intro hcontra
            exact absurd hcontra (by simp)
        · -- first candidate: continue with best = ⟨i, extra⟩
          have step : findBestAux needed (s :: rest) i none =
              findBestAux needed rest (i + 1)
                (some ⟨i, s.stripes - needed⟩) := by
            simp [findBestAux, hfit, hzero]
          rw [step]
          apply ih (i + 1) _ hrest
          refine ⟨Nat.lt_succ_self i, Nat.pos_of_ne_zero hzero,
            ⟨s, hs, hfit, rfl⟩, ?_, ?_⟩
          · intro j hj t hjt hfitt
            show s.stripes - needed ≤ t.stripes - needed
            by_cases hji : j < i
            · have := hb j hji t hjt
              omega
            · have hji' : j = i := by omega
              subst hji'
              rw [hs, Option.some_inj] at hjt
              subst hjt
              omega
          · intro j hj t hjt hfitt
            have hj' : j < i := hj
            have := hb j hj' t hjt
            show s.stripes - needed < t.stripes - needed
            omega
      · -- does not fit, no candidate yet: skip
        have step : findBestAux needed (s :: rest) i none =
            findBestAux needed rest (i + 1) none := by
          simp [findBestAux, hfit]
        rw [step]
        apply ih (i + 1) _ hrest
        intro j hj t hjt
        by_cases hji : j < i
        · exact hb j hji t hjt
        · have hji' : j = i := by omega
          subst hji'
          rw [hs, Option.some_inj] at hjt
          subst hjt
          omega
    | some b =>
      obtain ⟨hlt, hpos, hat, hmin, hfirst⟩ := hb
      by_cases hfit : needed ≤ s.stripes
      · by_cases hbetter : s.stripes - needed < b.extra_stripes
        · by_cases hzero : s.stripes - needed = 0
          · -- perfect fit improving on the candidate: break
            have step : findBestAux needed (s :: rest) i (some b) =
                some ⟨i, 0⟩ := by
              simp [findBestAux, hfit, hbetter, hzero, hpos]
            rw [step]
            constructor
            · intro r hr
              rw [Option.some_inj] at hr
              subst hr
              refine ⟨⟨s, hs, hfit, hzero.symm⟩, ?_, ?_⟩
              · intro j t hjt hfitt
                show (0 : Nat) ≤ t.stripes - needed
                omega
              · intro j hj t hjt hfitt
                have hj' : j < i := hj
                have := hmin j hj' t hjt hfitt
                show (0 : Nat) < t.stripes - needed
                omega
            · intro hcontra
              exact absurd hcontra (by simp)
          · -- strict improvement: continue with best = ⟨i, extra⟩
            have step : findBestAux needed (s :: rest) i (some b) =
                findBestAux needed rest (i + 1)
                  (some ⟨i, s.stripes - needed⟩) := by
              simp [findBestAux, hfit, hbetter, hzero]
            rw [step]
            apply ih (i + 1) _ hrest
            refine ⟨Nat.lt_succ_self i, Nat.pos_of_ne_zero hzero,
              ⟨s, hs, hfit, rfl⟩, ?_, ?_⟩
            · intro j hj t hjt hfitt
              show s.stripes - needed ≤ t.stripes - needed
              by_cases hji : j < i
              · have := hmin j hji t hjt hfitt
                omega
              · have hji' : j = i := by omega
                subst hji'
                rw [hs, Option.some_inj] at hjt
                subst hjt
                omega
            · intro j hj t hjt hfitt
              have hj' : j < i := hj
              have := hmin j hj' t hjt hfitt
              show s.stripes - needed < t.stripes - needed
              omega
        · -- fits but no improvement: keep the candidate
          have step : findBestAux needed (s :: rest) i (some b) =
              findBestAux needed rest (i + 1) (some b) := by
            simp [findBestAux, hfit, hbetter]
          rw [step]
          apply ih (i + 1) _ hrest
          refine ⟨by omega, hpos, hat, ?_, hfirst⟩
          intro j hj t hjt hfitt
          by_cases hji : j < i
          · exact hmin j hji t hjt hfitt
          · have hji' : j = i := by omega
            subst hji'
            rw [hs, Option.some_inj] at hjt
            subst hjt
            omega
      · -- does not fit: skip
        have step : findBestAux needed (s :: rest) i (some b) =
            findBestAux needed rest (i + 1) (some b) := by
          simp [findBestAux, hfit]
        rw [step]
        apply ih (i + 1) _ hrest
        refine ⟨by omega, hpos, hat, ?_, hfirst⟩
        intro j hj t hjt hfitt
        by_cases hji : j < i
        · exact hmin j hji t hjt hfitt
        · have hji' : j = i := by omega
          subst hji'
          rw [hs, Option.some_inj] at hjt
          subst hjt
          omega

theorem findBest_spec {needed : Nat} {spans : List Span} {r : BestSpan}
    (h : findBest needed spans = some r) : BestSpec needed spans r := by
  have := findBestAux_spec needed spans spans 0 none
    (by intro k; simp) (by intro j hj; omega)
  exact this.1 r h

theorem findBest_none {needed : Nat} {spans : List Span}
    (h : findBest needed spans = none) :
    ∀ (j : Nat) (t : Span), spans[j]? = some t → t.stripes < needed := by
  have := findBestAux_spec needed spans spans 0 none
    (by intro k; simp) (by intro j hj; omega)
  exact this.2 h

/-- Structural characterization of a successful `Slab::allocate`. -/
theorem slabAllocate_eq {S length off len : Nat} {spans spans' : List Span}
    (h : slabAllocate S spans length = some (off, len, spans')) :
    ∃ b s, findBest (stripesNeeded S length) spans = some b ∧
      spans[b.index]? = some s ∧
      BestSpec (stripesNeeded S length) spans b ∧
      off = s.offset ∧ len = stripesNeeded S length * S ∧
      (s.stripes - stripesNeeded S length = 0 →
        spans' = spans.eraseIdx b.index) ∧
      (s.stripes - stripesNeeded S length ≠ 0 →
        spans' = spans.set b.index
          ⟨s.offset + stripesNeeded S length * S,
           s.stripes - stripesNeeded S length⟩) := by
  simp only [slabAllocate] at h
  rcases hb : findBest (stripesNeeded S length) spans with _ | b
  · rw [hb] at h
    exact absurd h (by simp)
  · rw [hb] at h
    simp only at h
    rcases hsg : spans[b.index]? with _ | s
    · rw [hsg] at h
      exact absurd h (by simp)
    · rw [hsg] at h
      simp only at h
      by_cases hz : s.stripes - stripesNeeded S length = 0
      · rw [if_pos hz] at h
        rw [Option.some_inj, Prod.mk.injEq, Prod.mk.injEq] at h
        obtain ⟨h1, h2, h3⟩ := h
        exact ⟨b, s, rfl, hsg, findBest_spec hb, h1.symm, h2.symm,
          fun _ => h3.symm, fun hc => absurd hz hc⟩
      · rw [if_neg hz] at h
        rw [Option.some_inj, Prod.mk.injEq, Prod.mk.injEq] at h
        obtain ⟨h1, h2, h3⟩ := h
        exact ⟨b, s, rfl, hsg, findBest_spec hb, h1.symm, h2.symm,
          fun hc => absurd hc hz, fun _ => h3.symm⟩
/-! ## Disjointness is preserved by `Slab::free` -/

theorem mergeHead_disj (S : Nat) (m : Span) (rest : List Span)
    (hp : rest.Pairwise (spanDisj S))
    (hm : ∀ t ∈ rest, spanDisj S m t) :
    (mergeHead S m rest).Pairwise (spanDisj S) ∧
    ∀ t ∈ mergeHead S m rest, ∀ x, inR t.offset (t.stripes * S) x →
      inR m.offset (m.stripes * S) x ∨
        ∃ s ∈ rest, inR s.offset (s.stripes * S) x := by
  cases rest with
  | nil =>
    constructor
    · simp [mergeHead]
    · intro t ht x hx
      simp [mergeHead] at ht
      subst ht
      exact Or.inl hx
  | cons n rest' =>
    rw [mergeHead]
    obtain ⟨hn, hp'⟩ := List.pairwise_cons.1 hp
    by_cases hadj : n.offset = m.spanEnd S
    · rw [if_pos hadj]
      have hcov := span_union_mem S m n hadj
      have hdisj : ∀ t ∈ rest', spanDisj S ⟨m.offset, m.stripes + n.stripes⟩ t := by
        intro t ht
        apply (rdisj_iff _ _ _ _).2
        intro x hx hxt
        rcases (hcov x).1 hx with hxm | hxn
        · exact (rdisj_iff _ _ _ _).1 (hm t (List.mem_cons_of_mem _ ht)) x hxm hxt
        · exact (rdisj_iff _ _ _ _).1 (hn t ht) x hxn hxt
      constructor
      · exact List.pairwise_cons.2 ⟨hdisj, hp'⟩
      · intro t ht x hx
        rcases List.mem_cons.1 ht with ht | ht
        · subst ht
          rcases (hcov x).1 hx with hxm | hxn
          · exact Or.inl hxm
          · exact Or.inr ⟨n, List.mem_cons_self _ _, hxn⟩
        · exact Or.inr ⟨t, List.mem_cons_of_mem _ ht, hx⟩
    · rw [if_neg hadj]
      constructor
      · exact List.pairwise_cons.2 ⟨hm, hp⟩
      · intro t ht x hx
        rcases List.mem_cons.1 ht with ht | ht
        · subst ht
          exact Or.inl hx
        · exact Or.inr ⟨t, ht, hx⟩

theorem freeSpans_disj (S : Nat) (f : Span) :
    ∀ l : List Span,
      l.Pairwise (spanDisj S) →
      (∀ s ∈ l, spanDisj S f s) →
      (freeSpans S f l).Pairwise (spanDisj S) ∧
      ∀ t ∈ freeSpans S f l, ∀ x, inR t.offset (t.stripes * S) x →
        inR f.offset (f.stripes * S) x ∨
          ∃ s ∈ l, inR s.offset (s.stripes * S) x := by
  intro l
  induction l with
  | nil =>
    intro _ _
    constructor
    · simp [freeSpans]
    · intro t ht x hx
      simp [freeSpans] at ht
      subst ht
      exact Or.inl hx
  | cons s rest ih =>
    intro hp hf
    obtain ⟨hsRest, hp'⟩ := List.pairwise_cons.1 hp
    have hfRest : ∀ t ∈ rest, spanDisj S f t :=
      fun t ht => hf t (List.mem_cons_of_mem _ ht)
    have hfs : spanDisj S f s := hf s (List.mem_cons_self _ _)
    rw [freeSpans]
    by_cases h1 : s.offset < f.offset ∧ s.spanEnd S = f.offset
    · rw [if_pos h1]
      have hcov : ∀ x, inR s.offset ((s.stripes + f.stripes) * S) x ↔
          inR s.offset (s.stripes * S) x ∨ inR f.offset (f.stripes * S) x :=
        fun x => span_union_mem S s f h1.2.symm x
      have hmdis : ∀ t ∈ rest, spanDisj S ⟨s.offset, s.stripes + f.stripes⟩ t := by
        intro t ht
        apply (rdisj_iff _ _ _ _).2
        intro x hx hxt
        rcases (hcov x).1 hx with hxs | hxf
        · exact (rdisj_iff _ _ _ _).1 (hsRest t ht) x hxs hxt
        · exact (rdisj_iff _ _ _ _).1 (hfRest t ht) x hxf hxt
      obtain ⟨hP, hC⟩ := mergeHead_disj S ⟨s.offset, s.stripes + f.stripes⟩ rest hp' hmdis
      refine ⟨hP, ?_⟩
      intro t ht x hx
      rcases hC t ht x hx with hxm | ⟨r, hr, hxr⟩
      · rcases (hcov x).1 hxm with hxs | hxf
        · exact Or.inr ⟨s, List.mem_cons_self _ _, hxs⟩
        · exact Or.inl hxf
      · exact Or.inr ⟨r, List.mem_cons_of_mem _ hr, hxr⟩
    · rw [if_neg h1]
      by_cases h2 : f.offset < s.offset
      · rw [if_pos h2]
        by_cases h3 : s.offset = f.spanEnd S
        · rw [if_pos h3]
          have hcov : ∀ x, inR f.offset ((s.stripes + f.stripes) * S) x ↔
              inR f.offset (f.stripes * S) x ∨ inR s.offset (s.stripes * S) x := by
            intro x
            rw [Nat.add_comm s.stripes f.stripes]
            exact span_union_mem S f s h3 x
          have hmdis : ∀ t ∈ rest, spanDisj S ⟨f.offset, s.stripes + f.stripes⟩ t := by
            intro t ht
            apply (rdisj_iff _ _ _ _).2
            intro x hx hxt
            rcases (hcov x).1 hx with hxf | hxs
            · exact (rdisj_iff _ _ _ _).1 (hfRest t ht) x hxf hxt
            · exact (rdisj_iff _ _ _ _).1 (hsRest t ht) x hxs hxt
          obtain ⟨hP, hC⟩ :=
            mergeHead_disj S ⟨f.offset, s.stripes + f.stripes⟩ rest hp' hmdis
          refine ⟨hP, ?_⟩
          intro t ht x hx
          rcases hC t ht x hx with hxm | ⟨r, hr, hxr⟩
          · rcases (hcov x).1 hxm with hxf | hxs
            · exact Or.inl hxf
            · exact Or.inr ⟨s, List.mem_cons_self _ _, hxs⟩
          · exact Or.inr ⟨r, List.mem_cons_of_mem _ hr, hxr⟩
        · rw [if_neg h3]
          constructor
          · exact List.pairwise_cons.2 ⟨hf, hp⟩
          · intro t ht x hx
            rcases List.mem_cons.1 ht with ht | ht
            · subst ht
              exact Or.inl hx
            · exact Or.inr ⟨t, ht, hx⟩
      · rw [if_neg h2]
        obtain ⟨hP, hC⟩ := ih hp' hfRest
        constructor
        · refine List.pairwise_cons.2 ⟨?_, hP⟩
          intro t ht
          apply (rdisj_iff _ _ _ _).2
          intro x hxs hxt
          rcases hC t ht x hxt with hxf | ⟨r, hr, hxr⟩
          · exact (rdisj_iff _ _ _ _).1 (rdisj_symm hfs) x hxs hxf
          · exact (rdisj_iff _ _ _ _).1 (hsRest r hr) x hxs hxr
        · intro t ht x hx
          rcases List.mem_cons.1 ht with ht | ht
          · subst ht
            exact Or.inr ⟨t, List.mem_cons_self _ _, hx⟩
          · rcases hC t ht x hx with hxf | ⟨r, hr, hxr⟩
            · exact Or.inl hxf
            · exact Or.inr ⟨r, List.mem_cons_of_mem _ hr, hxr⟩

/-! ## Claim C1: disjointness of live allocations and free spans -/

theorem disjInv_step (S : Nat) (m : SlabMachine) (op : SlabOp)
    (h : disjInv S m) : disjInv S (slabStep S m op) := by
  obtain ⟨hA, hX, hS⟩ := h
  cases op with
  | alloc length =>
    show disjInv S (match slabAllocate S m.spans length with
      | none => m
      | some (off, len, spans') => ⟨spans', (off, len) :: m.allocs⟩)
    rcases ha : slabAllocate S m.spans length with _ | ⟨off, len, spans'⟩
    · exact ⟨hA, hX, hS⟩
    · show disjInv S ⟨spans', (off, len) :: m.allocs⟩
      obtain ⟨b, s, hfb, hsg, hbs, hoff, hlen, herase, hset⟩ := slabAllocate_eq ha
      obtain ⟨pre, post, hsplit, hlenpre⟩ := getElem?_split _ _ _ hsg
      obtain ⟨⟨s', hsg', hfit', hex'⟩, hminS, hfirstS⟩ := hbs
      have hseq : s = s' := Option.some_inj.1 (hsg.symm.trans hsg')
      subst hseq
      set needed := stripesNeeded S length with hneed
      -- the allocated range sits in the front of the chosen span
      have hmul : needed * S ≤ s.stripes * S := Nat.mul_le_mul_right S hfit'
      have hallocSub : ∀ x, inR off len x → inR s.offset (s.stripes * S) x := by
        intro x hx
        rw [hoff, hlen] at hx
        unfold inR at hx ⊢
        omega
      have hnewSub : ∀ x,
          inR (s.offset + needed * S) ((s.stripes - needed) * S) x →
            inR s.offset (s.stripes * S) x := by
        intro x hx
        rw [Nat.sub_mul] at hx
        unfold inR at hx ⊢
        omega
      have hSsplit := hS
      rw [hsplit] at hSsplit
      obtain ⟨hpreP, hconsP, hcrossP⟩ := List.pairwise_append.1 hSsplit
      obtain ⟨hsPost, hpostP⟩ := List.pairwise_cons.1 hconsP
      have hsMem : s ∈ m.spans := by
        rw [hsplit]
        exact List.mem_append_right _ (List.mem_cons_self _ _)
      -- disjointness facts about the chosen span and the rest of the list
      have hsOther : ∀ t, t ∈ pre ∨ t ∈ post → spanDisj S s t := by
        intro t ht
        rcases ht with ht | ht
        · exact rdisj_symm (hcrossP t ht s (List.mem_cons_self _ _))
        · exact hsPost t ht
      have hallocOld : ∀ a ∈ m.allocs, rdisj off len a.1 a.2 := by
        intro a ha
        exact rdisj_mono hallocSub (rdisj_symm (hX a ha s hsMem))
      have hallocSpanOther : ∀ t, t ∈ pre ∨ t ∈ post →
          rdisj off len t.offset (t.stripes * S) := by
        intro t ht
        exact rdisj_mono hallocSub (hsOther t ht)
      have hallocNewSpan :
          rdisj off len (s.offset + needed * S) ((s.stripes - needed) * S) := by
        rw [hoff, hlen]
        exact Or.inr (Or.inr (Or.inl (Nat.le_refl _)))
      have holdNewSpan : ∀ a ∈ m.allocs,
          rdisj a.1 a.2 (s.offset + needed * S) ((s.stripes - needed) * S) := by
        intro a ha
        exact rdisj_mono_right hnewSub (hX a ha s hsMem)
      by_cases hz : s.stripes - needed = 0
      · -- the span was consumed entirely and removed
        have hspans' : spans' = pre ++ post := by
          rw [herase hz, hsplit, ← hlenpre, eraseIdx_split]
        refine ⟨?_, ?_, ?_⟩
        · refine List.pairwise_cons.2 ⟨?_, hA⟩
          intro a ha
          exact hallocOld a ha
        · intro a ha t ht
          rw [hspans'] at ht
          have ht' : t ∈ pre ∨ t ∈ post := List.mem_append.1 ht
          rcases List.mem_cons.1 ha with ha | ha
          · subst ha
            exact hallocSpanOther t ht'
          · rcases ht' with htp | htp
            · exact hX a ha t (by rw [hsplit]; exact List.mem_append_left _ htp)
            · exact hX a ha t
                (by rw [hsplit]
                    exact List.mem_append_right _ (List.mem_cons_of_mem _ htp))
        · rw [hspans']
          refine List.pairwise_append.2 ⟨hpreP, hpostP, ?_⟩
          intro p hp q hq
          exact hcrossP p hp q (List.mem_cons_of_mem _ hq)
      · -- the span was advanced in place
        have hspans' : spans' =
            pre ++ (⟨s.offset + needed * S, s.stripes - needed⟩ : Span) :: post := by
          rw [hset hz, hsplit, ← hlenpre, set_split]
        refine ⟨?_, ?_, ?_⟩
        · refine List.pairwise_cons.2 ⟨?_, hA⟩
          intro a ha
          exact hallocOld a ha
        · intro a ha t ht
          rw [hspans'] at ht
          rcases List.mem_append.1 ht with htp | htc
          · rcases List.mem_cons.1 ha with ha | ha
            · subst ha
              exact hallocSpanOther t (Or.inl htp)
            · exact hX a ha t (by rw [hsplit]; exact List.mem_append_left _ htp)
          · rcases List.mem_cons.1 htc with htn | htp
            · subst htn
              rcases List.mem_cons.1 ha with ha | ha
              · subst ha
                exact hallocNewSpan
              · exact holdNewSpan a ha
            · rcases List.mem_cons.1 ha with ha | ha
              · subst ha
                exact hallocSpanOther t (Or.inr htp)
              · exact hX a ha t
                  (by rw [hsplit]
                      exact List.mem_append_right _ (List.mem_cons_of_mem _ htp))
        · rw [hspans']
          refine List.pairwise_append.2 ⟨hpreP, ?_, ?_⟩
          · refine List.pairwise_cons.2 ⟨?_, hpostP⟩
            intro q hq
            apply (rdisj_iff _ _ _ _).2
            intro x hx hxq
            exact (rdisj_iff _ _ _ _).1 (hsPost q hq) x (hnewSub x hx) hxq
          · intro p hp q hq
            rcases List.mem_cons.1 hq with hq | hq
            · subst hq
              apply (rdisj_iff _ _ _ _).2
              intro x hxp hxq
              exact (rdisj_iff _ _ _ _).1
                (hcrossP p hp s (List.mem_cons_self _ _)) x hxp (hnewSub x hxq)
            · exact hcrossP p hp q (List.mem_cons_of_mem _ hq)
  | free i =>
    show disjInv S (match m.allocs[i]? with
      | none => m
      | some (off, len) =>
          ⟨freeSpans S ⟨off, len / S⟩ m.spans, m.allocs.eraseIdx i⟩)
    rcases hi : m.allocs[i]? with _ | ⟨off, len⟩
    · exact ⟨hA, hX, hS⟩
    · show disjInv S ⟨freeSpans S ⟨off, len / S⟩ m.spans, m.allocs.eraseIdx i⟩
      obtain ⟨apre, apost, hasplit, halen⟩ := getElem?_split _ _ _ hi
      have hsub : ∀ x, inR off (len / S * S) x → inR off len x := by
        intro x hx
        have := Nat.div_mul_le_self len S
        unfold inR at hx ⊢
        omega
      have hfreedMem : (off, len) ∈ m.allocs := by
        rw [hasplit]
        exact List.mem_append_right _ (List.mem_cons_self _ _)
      have hfd : ∀ t ∈ m.spans, spanDisj S ⟨off, len / S⟩ t := by
        intro t ht
        exact rdisj_mono hsub (hX (off, len) hfreedMem t ht)
      obtain ⟨hP, hC⟩ := freeSpans_disj S ⟨off, len / S⟩ m.spans hS hfd
      have hAsplit := hA
      rw [hasplit] at hAsplit
      obtain ⟨hApre, hAcons, hAcross⟩ := List.pairwise_append.1 hAsplit
      obtain ⟨hAfreed, hApost⟩ := List.pairwise_cons.1 hAcons
      have herase : m.allocs.eraseIdx i = apre ++ apost := by
        rw [hasplit, ← halen, eraseIdx_split]
      refine ⟨?_, ?_, hP⟩
      · rw [herase]
        refine List.pairwise_append.2 ⟨hApre, hApost, ?_⟩
        intro p hp q hq
        exact hAcross p hp q (List.mem_cons_of_mem _ hq)
      · intro a ha t ht
        rw [herase] at ha
        have hadisj : rdisj a.1 a.2 off len := by
          rcases List.mem_append.1 ha with hap | hap
          · exact hAcross a hap (off, len) (List.mem_cons_self _ _)
          · exact rdisj_symm (hAfreed a hap)
        have haMem : a ∈ m.allocs := by
          rw [hasplit]
          rcases List.mem_append.1 ha with hap | hap
          · exact List.mem_append_left _ hap
          · exact List.mem_append_right _ (List.mem_cons_of_mem _ hap)
        apply (rdisj_iff _ _ _ _).2
        intro x hxa hxt
        rcases hC t ht x hxt with hxf | ⟨r, hr, hxr⟩
        · exact (rdisj_iff _ _ _ _).1 hadisj x hxa (hsub x hxf)
        · exact (rdisj_iff _ _ _ _).1 (hX a haMem r hr) x hxa hxr

theorem disjInv_runSlab (S L : Nat) (ops : List SlabOp) :
    disjInv S (runSlab S L ops) := by
  have hinit : disjInv S ⟨slabNew S L, []⟩ := by
    refine ⟨List.Pairwise.nil, ?_, ?_⟩
    · intro a ha
      simp at ha
    · simp [slabNew]
  rw [runSlab]
  suffices h : ∀ m : SlabMachine, disjInv S m →
      disjInv S (ops.foldl (slabStep S) m) from h _ hinit
  induction ops with
  | nil => intro m hm; exact hm
  | cons op rest ih =>
    intro m hm
    exact ih _ (disjInv_step S m op hm)

/-! ## Well-formedness is preserved by `Slab::free` -/

theorem mergeHead_wf (S bound : Nat) (m : Span) (rest : List Span)
    (hrest : ∀ t ∈ rest, S ∣ t.offset ∧ 1 ≤ t.stripes ∧ t.spanEnd S ≤ bound)
    (hp : rest.Pairwise (fun a b => a.spanEnd S < b.offset))
    (hmProps : S ∣ m.offset ∧ 1 ≤ m.stripes ∧ m.spanEnd S ≤ bound)
    (hmLe : ∀ t ∈ rest, m.spanEnd S ≤ t.offset) :
    (∀ t ∈ mergeHead S m rest,
      S ∣ t.offset ∧ 1 ≤ t.stripes ∧ t.spanEnd S ≤ bound) ∧
    (mergeHead S m rest).Pairwise (fun a b => a.spanEnd S < b.offset) ∧
    (∀ t ∈ mergeHead S m rest,
      t.offset = m.offset ∨ ∃ r ∈ rest, t.offset = r.offset) := by
  cases rest with
  | nil =>
    refine ⟨?_, by simp [mergeHead], ?_⟩
    · intro t ht
      simp [mergeHead] at ht
      subst ht
      exact hmProps
    · intro t ht
      simp [mergeHead] at ht
      subst ht
      exact Or.inl rfl
  | cons n rest' =>
    rw [mergeHead]
    obtain ⟨hn, hp'⟩ := List.pairwise_cons.1 hp
    obtain ⟨hnDvd, hnPos, hnBnd⟩ := hrest n (List.mem_cons_self _ _)
    by_cases hadj : n.offset = m.spanEnd S
    · rw [if_pos hadj]
      have hme : (⟨m.offset, m.stripes + n.stripes⟩ : Span).spanEnd S =
          n.spanEnd S := by
        show m.offset + (m.stripes + n.stripes) * S = n.spanEnd S
        unfold Span.spanEnd at hadj ⊢
        rw [Nat.add_mul]
        omega
      refine ⟨?_, ?_, ?_⟩
      · intro t ht
        rcases List.mem_cons.1 ht with ht | ht
        · subst ht
          refine ⟨hmProps.1, ?_, ?_⟩
          · show 1 ≤ m.stripes + n.stripes
            have := hmProps.2.1
            omega
          · rw [hme]
            exact hnBnd
        · exact hrest t (List.mem_cons_of_mem _ ht)
      · refine List.pairwise_cons.2 ⟨?_, hp'⟩
        intro t ht
        rw [hme]
        exact hn t ht
      · intro t ht
        rcases List.mem_cons.1 ht with ht | ht
        · subst ht
          exact Or.inl rfl
        · exact Or.inr ⟨t, List.mem_cons_of_mem _ ht, rfl⟩
    · rw [if_neg hadj]
      have hmn : m.spanEnd S < n.offset := by
        have := hmLe n (List.mem_cons_self _ _)
        omega
      refine ⟨?_, ?_, ?_⟩
      · intro t ht
        rcases List.mem_cons.1 ht with ht | ht
        · subst ht
          exact hmProps
        · exact hrest t ht
      · refine List.pairwise_cons.2 ⟨?_, hp⟩
        intro t ht
        rcases List.mem_cons.1 ht with ht | ht
        · subst ht
          exact hmn
        · have h1 := hn t ht
          have h2 : n.offset ≤ n.spanEnd S := Nat.le_add_right _ _
          omega
      · intro t ht
        rcases List.mem_cons.1 ht with ht | ht
        · subst ht
          exact Or.inl rfl
        · exact Or.inr ⟨t, ht, rfl⟩

theorem freeSpans_wf (S bound : Nat) (f : Span) (hS : 1 ≤ S)
    (hfProps : S ∣ f.offset ∧ 1 ≤ f.stripes ∧ f.spanEnd S ≤ bound) :
    ∀ l : List Span,
      (∀ t ∈ l, S ∣ t.offset ∧ 1 ≤ t.stripes ∧ t.spanEnd S ≤ bound) →
      l.Pairwise (fun a b => a.spanEnd S < b.offset) →
      (∀ t ∈ l, spanDisj S f t) →
      (∀ t ∈ freeSpans S f l,
        S ∣ t.offset ∧ 1 ≤ t.stripes ∧ t.spanEnd S ≤ bound) ∧
      (freeSpans S f l).Pairwise (fun a b => a.spanEnd S < b.offset) ∧
      (∀ t ∈ freeSpans S f l,
        f.offset ≤ t.offset ∨ ∃ r ∈ l, t.offset = r.offset) := by
  have hfpos : f.offset < f.spanEnd S := by
    unfold Span.spanEnd
    have : 1 * 1 ≤ f.stripes * S := Nat.mul_le_mul hfProps.2.1 hS
    omega
  intro l
  induction l with
  | nil =>
    intro _ _ _
    refine ⟨?_, by simp [freeSpans], ?_⟩
    · intro t ht
      simp [freeSpans] at ht
      subst ht
      exact hfProps
    · intro t ht
      simp [freeSpans] at ht
      subst ht
      exact Or.inl (Nat.le_refl _)
  | cons s rest ih =>
    intro hprops hp hdisj
    obtain ⟨hsDvd, hsPos, hsBnd⟩ := hprops s (List.mem_cons_self _ _)
    have hrestProps : ∀ t ∈ rest, S ∣ t.offset ∧ 1 ≤ t.stripes ∧
        t.spanEnd S ≤ bound := fun t ht => hprops t (List.mem_cons_of_mem _ ht)
    obtain ⟨hsRest, hp'⟩ := List.pairwise_cons.1 hp
    have hfs := hdisj s (List.mem_cons_self _ _)
    have hfRest : ∀ t ∈ rest, spanDisj S f t :=
      fun t ht => hdisj t (List.mem_cons_of_mem _ ht)
    have hspos : s.offset < s.spanEnd S := by
      unfold Span.spanEnd
      have : 1 * 1 ≤ s.stripes * S := Nat.mul_le_mul hsPos hS
      omega
    have hfsOr : f.spanEnd S ≤ s.offset ∨ s.spanEnd S ≤ f.offset := by
      unfold spanDisj rdisj at hfs
      unfold Span.spanEnd at hfpos hspos ⊢
      omega
    rw [freeSpans]
    by_cases h1 : s.offset < f.offset ∧ s.spanEnd S = f.offset
    · rw [if_pos h1]
      obtain ⟨h1a, h1b⟩ := h1
      have hme : (⟨s.offset, s.stripes + f.stripes⟩ : Span).spanEnd S =
          f.spanEnd S := by
        show s.offset + (s.stripes + f.stripes) * S = f.spanEnd S
        unfold Span.spanEnd at h1b ⊢
        rw [Nat.add_mul]
        omega
      have hmLe : ∀ t ∈ rest,
          (⟨s.offset, s.stripes + f.stripes⟩ : Span).spanEnd S ≤ t.offset := by
        intro t ht
        rw [hme]
        have hst := hsRest t ht
        have htf := hfRest t ht
        have hfm : 1 * 1 ≤ f.stripes * S := Nat.mul_le_mul hfProps.2.1 hS
        have htm : 1 * 1 ≤ t.stripes * S :=
          Nat.mul_le_mul (hrestProps t ht).2.1 hS
        unfold spanDisj rdisj at htf
        unfold Span.spanEnd at hst h1b ⊢
        omega
      obtain ⟨hPr, hPw, hOf⟩ := mergeHead_wf S bound
        ⟨s.offset, s.stripes + f.stripes⟩ rest hrestProps hp'
        ⟨hsDvd, by show 1 ≤ s.stripes + f.stripes; omega,
          by rw [hme]; exact hfProps.2.2⟩ hmLe
      refine ⟨hPr, hPw, ?_⟩
      intro t ht
      rcases hOf t ht with ht' | ⟨r, hr, ht'⟩
      · exact Or.inr ⟨s, List.mem_cons_self _ _, ht'⟩
      · exact Or.inr ⟨r, List.mem_cons_of_mem _ hr, ht'⟩
    · rw [if_neg h1]
      by_cases h2 : f.offset < s.offset
      · rw [if_pos h2]
        by_cases h3 : s.offset = f.spanEnd S
        · rw [if_pos h3]
          have hme : (⟨f.offset, s.stripes + f.stripes⟩ : Span).spanEnd S =
              s.spanEnd S := by
            show f.offset + (s.stripes + f.stripes) * S = s.spanEnd S
            unfold Span.spanEnd at h3 ⊢
            rw [Nat.add_mul]
            omega
          have hmLe : ∀ t ∈ rest,
              (⟨f.offset, s.stripes + f.stripes⟩ : Span).spanEnd S ≤
                t.offset := by
            intro t ht
            rw [hme]
            have := hsRest t ht
            omega
          obtain ⟨hPr, hPw, hOf⟩ := mergeHead_wf S bound
            ⟨f.offset, s.stripes + f.stripes⟩ rest hrestProps hp'
            ⟨hfProps.1, by show 1 ≤ s.stripes + f.stripes; omega,
              by rw [hme]; exact hsBnd⟩ hmLe
          refine ⟨hPr, hPw, ?_⟩
          intro t ht
          rcases hOf t ht with ht' | ⟨r, hr, ht'⟩
          · exact Or.inl (by rw [ht'])
          · exact Or.inr ⟨r, List.mem_cons_of_mem _ hr, ht'⟩
        · rw [if_neg h3]
          have hfsLt : f.spanEnd S < s.offset := by
            rcases hfsOr with h' | h'
            · omega
            · omega
          refine ⟨?_, ?_, ?_⟩
          · intro t ht
            rcases List.mem_cons.1 ht with ht | ht
            · subst ht
              exact hfProps
            · exact hprops t ht
          · refine List.pairwise_cons.2 ⟨?_, hp⟩
            intro t ht
            rcases List.mem_cons.1 ht with ht | ht
            · subst ht
              exact hfsLt
            · have h4 := hsRest t ht
              omega
          · intro t ht
            rcases List.mem_cons.1 ht with ht | ht
            · subst ht
              exact Or.inl (Nat.le_refl _)
            · rcases List.mem_cons.1 ht with ht | ht
              · exact Or.inr ⟨s, List.mem_cons_self _ _, by rw [ht]⟩
              · exact Or.inr ⟨t, List.mem_cons_of_mem _ ht, rfl⟩
      · rw [if_neg h2]
        have hslt : s.spanEnd S < f.offset := by
          rcases Nat.lt_or_ge s.offset f.offset with hso | hso
          · rcases hfsOr with h' | h'
            · omega
            · rcases Nat.lt_or_ge (s.spanEnd S) f.offset with h'' | h''
              · exact h''
              · exact absurd ⟨hso, by omega⟩ h1
          · have hseq : s.offset = f.offset := by omega
            rcases hfsOr with h' | h'
            · omega
            · omega
        obtain ⟨hPr, hPw, hOf⟩ := ih hrestProps hp' hfRest
        refine ⟨?_, ?_, ?_⟩
        · intro t ht
          rcases List.mem_cons.1 ht with ht | ht
          · subst ht
            exact ⟨hsDvd, hsPos, hsBnd⟩
          · exact hPr t ht
        · refine List.pairwise_cons.2 ⟨?_, hPw⟩
          intro t ht
          rcases hOf t ht with ht' | ⟨r, hr, ht'⟩
          · omega
          · have := hsRest r hr
            omega
        · intro t ht
          rcases List.mem_cons.1 ht with ht | ht
          · subst ht
            exact Or.inr ⟨t, List.mem_cons_self _ _, rfl⟩
          · rcases hOf t ht with ht' | ⟨r, hr, ht'⟩
            · exact Or.inl ht'
            · exact Or.inr ⟨r, List.mem_cons_of_mem _ hr, ht'⟩

/-! ## Full well-formedness of the slab machine -/

theorem freeListWF_disj {S : Nat} {l : List Span}
    (h : l.Pairwise (fun a b => a.spanEnd S < b.offset)) :
    l.Pairwise (spanDisj S) := by
  refine h.imp ?_
  intro a b hab
  unfold Span.spanEnd at hab
  exact Or.inr (Or.inr (Or.inl (by omega)))

theorem stripesNeeded_pos {S length : Nat} (hS : 1 ≤ S) (hl : 1 ≤ length) :
    1 ≤ stripesNeeded S length := by
  unfold stripesNeeded
  rw [Nat.one_le_div_iff (by omega)]
  omega

theorem stripesNeeded_S_pos {S length : Nat}
    (h : 1 ≤ stripesNeeded S length) : 1 ≤ S := by
  by_contra hS
  have hS0 : S = 0 := by omega
  subst hS0
  simp [stripesNeeded] at h

theorem slabWF_step (S bound : Nat) (hS : 1 ≤ S) (m : SlabMachine)
    (op : SlabOp) (hop : op.positiveRequest) (h : slabWF S bound m) :
    slabWF S bound (slabStep S m op) := by
  obtain ⟨⟨hProps, hPw⟩, hAprops, hA, hX⟩ := h
  have hdisjInv' := disjInv_step S m op ⟨hA, hX, freeListWF_disj hPw⟩
  cases op with
  | alloc length =>
    have hlen1 : 1 ≤ length := hop
    rcases ha : slabAllocate S m.spans length with _ | ⟨off, len, spans'⟩
    · have hstep : slabStep S m (.alloc length) = m := by
        show (match slabAllocate S m.spans length with
          | none => m
          | some (off, len, spans') =>
              ⟨spans', (off, len) :: m.allocs⟩) = m
        rw [ha]
      rw [hstep]
      exact ⟨⟨hProps, hPw⟩, hAprops, hA, hX⟩
    · have hstep : slabStep S m (.alloc length) =
          ⟨spans', (off, len) :: m.allocs⟩ := by
        show (match slabAllocate S m.spans length with
          | none => m
          | some (off, len, spans') =>
              ⟨spans', (off, len) :: m.allocs⟩) = _
        rw [ha]
      rw [hstep] at hdisjInv' ⊢
      obtain ⟨hA', hX', hSp'⟩ := hdisjInv'
      obtain ⟨b, s, hfb, hsg, hbs, hoff, hlen, herase, hset⟩ := slabAllocate_eq ha
      obtain ⟨pre, post, hsplit, hlenpre⟩ := getElem?_split _ _ _ hsg
      obtain ⟨⟨s', hsg', hfit', hex'⟩, hminS, hfirstS⟩ := hbs
      have hseq : s = s' := Option.some_inj.1 (hsg.symm.trans hsg')
      subst hseq
      set needed := stripesNeeded S length with hneed
      have hneedpos : 1 ≤ needed := stripesNeeded_pos hS hlen1
      have hsMem : s ∈ m.spans := by
        rw [hsplit]
        exact List.mem_append_right _ (List.mem_cons_self _ _)
      obtain ⟨hsDvd, hsPos, hsBnd⟩ := hProps s hsMem
      have hmul : needed * S ≤ s.stripes * S := Nat.mul_le_mul_right S hfit'
      have hPwsplit := hPw
      rw [hsplit] at hPwsplit
      obtain ⟨hpreP, hconsP, hcrossP⟩ := List.pairwise_append.1 hPwsplit
      obtain ⟨hsPost, hpostP⟩ := List.pairwise_cons.1 hconsP
      have hend : (⟨s.offset + needed * S, s.stripes - needed⟩ : Span).spanEnd S
          = s.spanEnd S := by
        show s.offset + needed * S + (s.stripes - needed) * S = s.spanEnd S
        unfold Span.spanEnd
        rw [Nat.sub_mul]
        omega
      refine ⟨⟨?_, ?_⟩, ?_, hA', hX'⟩
      · -- span properties
        by_cases hz : s.stripes - needed = 0
        · rw [herase hz, hsplit, ← hlenpre, eraseIdx_split]
          intro t ht
          rcases List.mem_append.1 ht with ht | ht
          · exact hProps t (by rw [hsplit]; exact List.mem_append_left _ ht)
          · exact hProps t
              (by rw [hsplit]
                  exact List.mem_append_right _ (List.mem_cons_of_mem _ ht))
        · rw [hset hz, hsplit, ← hlenpre, set_split]
          intro t ht
          rcases List.mem_append.1 ht with ht | ht
          · exact hProps t (by rw [hsplit]; exact List.mem_append_left _ ht)
          · rcases List.mem_cons.1 ht with ht | ht
            · subst ht
              refine ⟨?_, ?_, ?_⟩
              · exact Dvd.dvd.add hsDvd (dvd_mul_left S needed)
              · show 1 ≤ s.stripes - needed
                omega
              · rw [hend]
                exact hsBnd
            · exact hProps t
                (by rw [hsplit]
                    exact List.mem_append_right _ (List.mem_cons_of_mem _ ht))
      · -- span ordering
        by_cases hz : s.stripes - needed = 0
        · rw [herase hz, hsplit, ← hlenpre, eraseIdx_split]
          refine List.pairwise_append.2 ⟨hpreP, hpostP, ?_⟩
          intro p hp q hq
          exact hcrossP p hp q (List.mem_cons_of_mem _ hq)
        · rw [hset hz, hsplit, ← hlenpre, set_split]
          refine List.pairwise_append.2 ⟨hpreP, ?_, ?_⟩
          · refine List.pairwise_cons.2 ⟨?_, hpostP⟩
            intro q hq
            rw [hend]
            exact hsPost q hq
          · intro p hp q hq
            rcases List.mem_cons.1 hq with hq | hq
            · subst hq
              have := hcrossP p hp s (List.mem_cons_self _ _)
              show p.spanEnd S < s.offset + needed * S
              omega
            · exact hcrossP p hp q (List.mem_cons_of_mem _ hq)
      · -- allocation properties
        intro a ha
        rcases List.mem_cons.1 ha with ha | ha
        · subst ha
          refine ⟨?_, ?_, ?_, ?_⟩
          · rw [hoff]
            exact hsDvd
          · rw [hlen]
            exact dvd_mul_left S needed
          · rw [hlen]
            have : 1 * 1 ≤ needed * S := Nat.mul_le_mul hneedpos hS
            omega
          · rw [hoff, hlen]
            unfold Span.spanEnd at hsBnd
            omega
        · exact hAprops a ha
  | free i =>
    rcases hi : m.allocs[i]? with _ | ⟨off, len⟩
    · have hstep : slabStep S m (.free i) = m := by
        show (match m.allocs[i]? with
          | none => m
          | some (off, len) =>
              ⟨freeSpans S ⟨off, len / S⟩ m.spans, m.allocs.eraseIdx i⟩) = m
        rw [hi]
      rw [hstep]
      exact ⟨⟨hProps, hPw⟩, hAprops, hA, hX⟩
    · have hstep : slabStep S m (.free i) =
          ⟨freeSpans S ⟨off, len / S⟩ m.spans, m.allocs.eraseIdx i⟩ := by
        show (match m.allocs[i]? with
          | none => m
          | some (off, len) =>
              ⟨freeSpans S ⟨off, len / S⟩ m.spans, m.allocs.eraseIdx i⟩) = _
        rw [hi]
      rw [hstep] at hdisjInv' ⊢
      obtain ⟨hA', hX', hSp'⟩ := hdisjInv'
      obtain ⟨apre, apost, hasplit, halen⟩ := getElem?_split _ _ _ hi
      have hmem : (off, len) ∈ m.allocs := by
        rw [hasplit]
        exact List.mem_append_right _ (List.mem_cons_self _ _)
      obtain ⟨hoDvd, hlDvd, hlPos, hoBnd⟩ := hAprops (off, len) hmem
      have hdm : len / S * S = len := Nat.div_mul_cancel hlDvd
      have hfreedProps : S ∣ (⟨off, len / S⟩ : Span).offset ∧
          1 ≤ (⟨off, len / S⟩ : Span).stripes ∧
          (⟨off, len / S⟩ : Span).spanEnd S ≤ bound := by
        refine ⟨hoDvd, ?_, ?_⟩
        · show 1 ≤ len / S
          rw [Nat.one_le_div_iff (by omega)]
          exact Nat.le_of_dvd (by omega) hlDvd
        · show off + len / S * S ≤ bound
          rw [hdm]
          exact hoBnd
      have hfd : ∀ t ∈ m.spans, spanDisj S ⟨off, len / S⟩ t := by
        intro t ht
        show rdisj off (len / S * S) t.offset (t.stripes * S)
        rw [hdm]
        exact hX (off, len) hmem t ht
      obtain ⟨hPr, hPw', _⟩ :=
        freeSpans_wf S bound ⟨off, len / S⟩ hS hfreedProps m.spans hProps hPw hfd
      refine ⟨⟨hPr, hPw'⟩, ?_, hA', hX'⟩
      intro a ha
      exact hAprops a ((List.eraseIdx_sublist _ i).subset ha)

theorem slabWF_runSlab (S L : Nat) (ops : List SlabOp) (hS : 1 ≤ S)
    (hSL : S ≤ L) (hops : ∀ op ∈ ops, op.positiveRequest) :
    slabWF S (L / S * S) (runSlab S L ops) := by
  have hinit : slabWF S (L / S * S) ⟨slabNew S L, []⟩ := by
    refine ⟨⟨?_, ?_⟩, ?_, List.Pairwise.nil, ?_⟩
    · intro t ht
      simp [slabNew] at ht
      subst ht
      refine ⟨dvd_zero S, ?_, ?_⟩
      · show 1 ≤ L / S
        rw [Nat.one_le_div_iff (by omega)]
        exact hSL
      · show 0 + L / S * S ≤ L / S * S
        omega
    · simp [slabNew]
    · intro a ha
      simp at ha
    · intro a ha
      simp at ha
  rw [runSlab]
  suffices hrun : ∀ (l : List SlabOp) (m : SlabMachine),
      (∀ op ∈ l, op.positiveRequest) → slabWF S (L / S * S) m →
      slabWF S (L / S * S) (l.foldl (slabStep S) m) from
    hrun ops _ hops hinit
  intro l
  induction l with
  | nil =>
    intro m _ hm
    exact hm
  | cons op rest ih =>
    intro m hl hm
    exact ih _ (fun o ho => hl o (List.mem_cons_of_mem _ ho))
      (slabWF_step S _ hS m op (hl op (List.mem_cons_self _ _)) hm)

/-! ## Allocate-then-free restores the free list exactly -/

theorem freeSpans_walk_past (S : Nat) (f : Span) :
    ∀ (pre X : List Span), (∀ p ∈ pre, p.spanEnd S < f.offset) →
      freeSpans S f (pre ++ X) = pre ++ freeSpans S f X := by
  intro pre
  induction pre with
  | nil =>
    intro X _
    rfl
  | cons p pre' ih =>
    intro X hlt
    have hp := hlt p (List.mem_cons_self _ _)
    have hple : p.offset ≤ p.spanEnd S := by
      unfold Span.spanEnd
      omega
    rw [List.cons_append, freeSpans]
    rw [if_neg (by
      rintro ⟨h1, h2⟩
      omega)]
    rw [if_neg (by omega)]
    rw [ih X (fun q hq => hlt q (List.mem_cons_of_mem _ hq))]
    rw [List.cons_append]

theorem allocate_free_restores {S bound length off len : Nat}
    {spans spans' : List Span}
    (hwf : freeListWF S bound spans)
    (hpos : 1 ≤ stripesNeeded S length)
    (ha : slabAllocate S spans length = some (off, len, spans')) :
    freeSpans S ⟨off, len / S⟩ spans' = spans := by
  have hS : 1 ≤ S := stripesNeeded_S_pos hpos
  obtain ⟨hProps, hPw⟩ := hwf
  obtain ⟨b, s, hfb, hsg, hbs, hoff, hlen, herase, hset⟩ := slabAllocate_eq ha
  obtain ⟨pre, post, hsplit, hlenpre⟩ := getElem?_split _ _ _ hsg
  obtain ⟨⟨s', hsg', hfit', hex'⟩, _, _⟩ := hbs
  have hseq : s = s' := Option.some_inj.1 (hsg.symm.trans hsg')
  subst hseq
  set needed := stripesNeeded S length with hneed
  clear_value needed
  have hdm : len / S = needed := by
    rw [hlen]
    exact Nat.mul_div_left needed hS
  have h11 : 1 * 1 ≤ needed * S := Nat.mul_le_mul hpos hS
  have hPwsplit := hPw
  rw [hsplit] at hPwsplit
  obtain ⟨hpreP, hconsP, hcrossP⟩ := List.pairwise_append.1 hPwsplit
  obtain ⟨hsPost, hpostP⟩ := List.pairwise_cons.1 hconsP
  have hf : (⟨off, len / S⟩ : Span) = ⟨s.offset, needed⟩ := by
    rw [hoff, hdm]
  rw [hf]
  have hprelt : ∀ p ∈ pre,
      p.spanEnd S < (⟨s.offset, needed⟩ : Span).offset := by
    intro p hp
    exact hcrossP p hp s (List.mem_cons_self _ _)
  by_cases hz : s.stripes - needed = 0
  · have hns : needed = s.stripes := by omega
    rw [herase hz, hsplit, ← hlenpre, eraseIdx_split,
      freeSpans_walk_past S _ pre post hprelt]
    congr 1
    cases post with
    | nil =>
      rw [freeSpans, hns]
    | cons q post' =>
      have hq := hsPost q (List.mem_cons_self _ _)
      have hqlow : s.offset < q.offset := by
        unfold Span.spanEnd at hq
        omega
      rw [freeSpans]
      rw [if_neg (by
        rintro ⟨h1, _⟩
        have h1' : q.offset < s.offset := h1
        omega)]
      rw [if_pos (show (⟨s.offset, needed⟩ : Span).offset < q.offset from hqlow)]
      rw [if_neg (by
        intro hc
        have hc' : q.offset = s.offset + needed * S := hc
        rw [hns] at hc'
        unfold Span.spanEnd at hq
        omega)]
      rw [hns]
  · rw [hset hz, hsplit, ← hlenpre, set_split,
      freeSpans_walk_past S _ pre _ hprelt]
    congr 1
    rw [freeSpans]
    rw [if_neg (by
      rintro ⟨h1, _⟩
      have h1' : s.offset + needed * S < s.offset := h1
      omega)]
    rw [if_pos (show (⟨s.offset, needed⟩ : Span).offset <
      (⟨s.offset + needed * S, s.stripes - needed⟩ : Span).offset from by
        show s.offset < s.offset + needed * S
        omega)]
    rw [if_pos (show (⟨s.offset + needed * S, s.stripes - needed⟩ : Span).offset
      = (⟨s.offset, needed⟩ : Span).spanEnd S from rfl)]
    have hms : (⟨(⟨s.offset, needed⟩ : Span).offset,
        (⟨s.offset + needed * S, s.stripes - needed⟩ : Span).stripes +
          (⟨s.offset, needed⟩ : Span).stripes⟩ : Span) = s := by
      show (⟨s.offset, s.stripes - needed + needed⟩ : Span) = s
      have hsn : s.stripes - needed + needed = s.stripes := by omega
      rw [hsn]
    rw [hms]
    cases post with
    | nil =>
      rw [mergeHead]
    | cons q post' =>
      have hq := hsPost q (List.mem_cons_self _ _)
      rw [mergeHead]
      rw [if_neg (by
        intro hc
        omega)]

/-! ## Ring bookkeeping lemmas -/

theorem ringIter_entries (st : RingState) : (ringIter st).2.entries = st.entries := by
  unfold ringIter
  by_cases h : st.entries.length = 0
  · rw [if_pos h]
  · rw [if_neg h]

theorem ringIter_cycle (st : RingState) (h : cycleInv st) :
    cycleInv (ringIter st).2 := by
  unfold ringIter
  by_cases h0 : st.entries.length = 0
  · rw [if_pos h0]
    exact h
  · rw [if_neg h0]
    cases hc : st.cycle with
    | zero =>
      right
      show st.entries.length - 1 < st.entries.length
      omega
    | succ cv =>
      right
      show cv < st.entries.length
      rcases h with h | h
      · rw [hc] at h
        exact absurd h (by omega)
      · rw [hc] at h
        omega

theorem ringIter_start_lt (st : RingState) (h : cycleInv st)
    (h1 : 1 ≤ st.entries.length) : (ringIter st).1 < st.entries.length := by
  unfold ringIter
  rw [if_neg (by omega)]
  cases hc : st.cycle with
  | zero =>
    show st.entries.length - 1 < st.entries.length
    omega
  | succ cv =>
    show cv < st.entries.length
    rcases h with h | h
    · rw [hc] at h
      exact absurd h (by omega)
    · rw [hc] at h
      omega

theorem ringIter_start_empty (st : RingState) (h : st.entries.length = 0) :
    (ringIter st).1 = 0 := by
  unfold ringIter
  rw [if_pos h]

theorem tryExisting_some (S : Nat) (st : RingState) (length : Nat) :
    ∀ (idxs : List Nat) (a : Nat × Nat × Nat) (st2 : RingState),
      tryExisting S st length idxs = some (a, st2) →
      st2.entries.length = st.entries.length ∧ st2.cycle = st.cycle := by
  intro idxs
  induction idxs with
  | nil =>
    intro a st2 h
    simp [tryExisting] at h
  | cons i rest ih =>
    intro a st2 h
    rw [tryExisting] at h
    rcases hg : st.entries[i]? with _ | spans
    · rw [hg] at h
      exact ih a st2 h
    · rw [hg] at h
      simp only at h
      rcases ha : slabAllocate S spans length with _ | ⟨off, len, spans'⟩
      · rw [ha] at h
        exact ih a st2 h
      · rw [ha] at h
        simp only [Option.some_inj, Prod.mk.injEq] at h
        obtain ⟨_, h2⟩ := h
        rw [← h2]
        exact ⟨List.length_set .., rfl⟩

theorem ringNewSlab_cycle (c : Config) (st : RingState) :
    (ringNewSlab c st).2.cycle = st.cycle := by
  unfold ringNewSlab
  by_cases h : (match c.memory_limit with
      | none => true
      | some limit => decide (st.entries.length * c.slab_size < limit)) = true
  · rw [if_pos h]
  · rw [if_neg h]

theorem ringNewSlab_mono (c : Config) (st : RingState) :
    st.entries.length ≤ (ringNewSlab c st).2.entries.length := by
  unfold ringNewSlab
  by_cases h : (match c.memory_limit with
      | none => true
      | some limit => decide (st.entries.length * c.slab_size < limit)) = true
  · rw [if_pos h]
    simp
  · rw [if_neg h]

theorem ringNewSlab_bound (c : Config) (st : RingState) {M : Nat}
    (hM : c.memory_limit = some M) (hS : 1 ≤ c.slab_size)
    (h : st.entries.length ≤ (M + c.slab_size - 1) / c.slab_size) :
    (ringNewSlab c st).2.entries.length ≤
      (M + c.slab_size - 1) / c.slab_size := by
  unfold ringNewSlab
  rw [hM]
  by_cases hg : st.entries.length * c.slab_size < M
  · rw [if_pos (by simpa using hg)]
    show (st.entries ++ [slabNew c.minimum_allocation_size c.slab_size]).length
      ≤ (M + c.slab_size - 1) / c.slab_size
    rw [List.length_append, List.length_cons, List.length_nil]
    show st.entries.length + 1 ≤ (M + c.slab_size - 1) / c.slab_size
    have hM1 : 1 ≤ M := by omega
    have h1 : st.entries.length * c.slab_size ≤ M - 1 := by omega
    have h2 : st.entries.length ≤ (M - 1) / c.slab_size :=
      (Nat.le_div_iff_mul_le (by omega)).2 h1
    have h3 : (M - 1 + c.slab_size) / c.slab_size =
        (M - 1) / c.slab_size + 1 := Nat.add_div_right _ (by omega)
    have h4 : M + c.slab_size - 1 = M - 1 + c.slab_size := by omega
    rw [h4, h3]
    omega
  · rw [if_neg (by simpa using hg)]
    exact h

theorem ringGrowLoop_cycle (c : Config) :
    ∀ (fuel : Nat) (st : RingState) (length : Nat),
      (ringGrowLoop c fuel st length).2.cycle = st.cycle := by
  intro fuel
  induction fuel with
  | zero =>
    intro st length
    rfl
  | succ n ih =>
    intro st length
    rw [ringGrowLoop]
    rcases hns : ringNewSlab c st with ⟨oi, st'⟩
    have hcy : st'.cycle = st.cycle := by
      have := ringNewSlab_cycle c st
      rw [hns] at this
      exact this
    cases oi with
    | none =>
      exact hcy
    | some i =>
      simp only
      rcases hg : st'.entries[i]? with _ | spans
      · exact hcy
      · simp only
        rcases ha : slabAllocate c.minimum_allocation_size spans length
          with _ | ⟨off, len, spans'⟩
        · exact (ih st' length).trans hcy
        · exact hcy

theorem ringGrowLoop_mono (c : Config) :
    ∀ (fuel : Nat) (st : RingState) (length : Nat),
      st.entries.length ≤ (ringGrowLoop c fuel st length).2.entries.length := by
  intro fuel
  induction fuel with
  | zero =>
    intro st length
    exact Nat.le_refl _
  | succ n ih =>
    intro st length
    rw [ringGrowLoop]
    rcases hns : ringNewSlab c st with ⟨oi, st'⟩
    have hmono : st.entries.length ≤ st'.entries.length := by
      have := ringNewSlab_mono c st
      rw [hns] at this
      exact this
    cases oi with
    | none =>
      exact hmono
    | some i =>
      simp only
      rcases hg : st'.entries[i]? with _ | spans
      · exact hmono
      · simp only
        rcases ha : slabAllocate c.minimum_allocation_size spans length
          with _ | ⟨off, len, spans'⟩
        · exact Nat.le_trans hmono (ih st' length)
        · show st.entries.length ≤ (st'.entries.set i spans').length
          rw [List.length_set]
          exact hmono

theorem ringGrowLoop_bound (c : Config) {M : Nat}
    (hM : c.memory_limit = some M) (hS : 1 ≤ c.slab_size) :
    ∀ (fuel : Nat) (st : RingState) (length : Nat),
      st.entries.length ≤ (M + c.slab_size - 1) / c.slab_size →
      (ringGrowLoop c fuel st length).2.entries.length ≤
        (M + c.slab_size - 1) / c.slab_size := by
  intro fuel
  induction fuel with
  | zero =>
    intro st length h
    exact h
  | succ n ih =>
    intro st length h
    rw [ringGrowLoop]
    rcases hns : ringNewSlab c st with ⟨oi, st'⟩
    have hb : st'.entries.length ≤ (M + c.slab_size - 1) / c.slab_size := by
      have := ringNewSlab_bound c st hM hS h
      rw [hns] at this
      exact this
    cases oi with
    | none =>
      exact hb
    | some i =>
      simp only
      rcases hg : st'.entries[i]? with _ | spans
      · exact hb
      · simp only
        rcases ha : slabAllocate c.minimum_allocation_size spans length
          with _ | ⟨off, len, spans'⟩
        · exact ih st' length hb
        · show (st'.entries.set i spans').length ≤
            (M + c.slab_size - 1) / c.slab_size
          rw [List.length_set]
          exact hb

theorem ringAllocate_state (c : Config) (fuel : Nat) (st : RingState)
    (length : Nat) :
    ((ringAllocate c fuel st length).2.cycle = st.cycle ∨
      (ringAllocate c fuel st length).2.cycle = (ringIter st).2.cycle) ∧
    st.entries.length ≤ (ringAllocate c fuel st length).2.entries.length := by
  unfold ringAllocate
  by_cases he : fastPathEligible c length = true
  · rw [if_pos he]
    rcases hit : ringIter st with ⟨start, st1⟩
    have hst1 : st1.entries = st.entries := by
      have := ringIter_entries st
      rw [hit] at this
      exact this
    have hst1c : st1.cycle = (ringIter st).2.cycle := by
      rw [hit]
    simp only
    rcases hte : tryExisting c.minimum_allocation_size st1 length
        (iterIndices st1.entries.length start) with _ | ⟨a, st2⟩
    · constructor
      · right
        show (ringGrowLoop c fuel st1 length).2.cycle = st1.cycle
        exact ringGrowLoop_cycle c fuel st1 length
      · show st.entries.length ≤
          (ringGrowLoop c fuel st1 length).2.entries.length
        have := ringGrowLoop_mono c fuel st1 length
        rw [hst1] at this
        exact this
    · obtain ⟨hlen2, hcyc2⟩ := tryExisting_some _ _ _ _ _ _ hte
      constructor
      · right
        show st2.cycle = st1.cycle
        exact hcyc2
      · show st.entries.length ≤ st2.entries.length
        rw [hlen2, hst1]
  · rw [if_neg he]
    exact ⟨Or.inl rfl, Nat.le_refl _⟩

theorem ringStep_mono (c : Config) (st : RingState) (op : RingOp) :
    st.entries.length ≤ (ringStep c st op).entries.length := by
  cases op with
  | allocate length fuel =>
    exact (ringAllocate_state c fuel st length).2
  | newSlab =>
    exact ringNewSlab_mono c st

theorem ringStep_cycleInv (c : Config) (st : RingState) (op : RingOp)
    (h : cycleInv st) : cycleInv (ringStep c st op) := by
  cases op with
  | allocate length fuel =>
    obtain ⟨hc, hl⟩ := ringAllocate_state c fuel st length
    have hiter := ringIter_cycle st h
    have hieq := ringIter_entries st
    rcases hc with hc | hc
    · rcases h with h | h
      · exact Or.inl (show (ringAllocate c fuel st length).2.cycle = 0 from
          by rw [hc, h])
      · right
        show (ringAllocate c fuel st length).2.cycle <
          (ringAllocate c fuel st length).2.entries.length
        rw [hc]
        exact Nat.lt_of_lt_of_le h hl
    · rcases hiter with hi | hi
      · exact Or.inl (show (ringAllocate c fuel st length).2.cycle = 0 from
          by rw [hc, hi])
      · right
        show (ringAllocate c fuel st length).2.cycle <
          (ringAllocate c fuel st length).2.entries.length
        rw [hc]
        rw [hieq] at hi
        exact Nat.lt_of_lt_of_le hi hl
  | newSlab =>
    rcases h with h | h
    · exact Or.inl (show (ringNewSlab c st).2.cycle = 0 from
        by rw [ringNewSlab_cycle]; exact h)
    · right
      show (ringNewSlab c st).2.cycle < (ringNewSlab c st).2.entries.length
      rw [ringNewSlab_cycle]
      exact Nat.lt_of_lt_of_le h (ringNewSlab_mono c st)

/-! ## Claim C4: the slab-count bound -/

theorem ringBound_runRing (c : Config) {M : Nat} (hM : c.memory_limit = some M)
    (hS : 1 ≤ c.slab_size) (ops : List RingOp) :
    (runRing c ops).entries.length ≤ (M + c.slab_size - 1) / c.slab_size := by
  rw [runRing]
  suffices h : ∀ (l : List RingOp) (st : RingState),
      st.entries.length ≤ (M + c.slab_size - 1) / c.slab_size →
      (l.foldl (ringStep c) st).entries.length ≤
        (M + c.slab_size - 1) / c.slab_size from
    h ops ⟨[], 0⟩ (by simp)
  intro l
  induction l with
  | nil =>
    intro st h
    exact h
  | cons op rest ih =>
    intro st h
    apply ih
    cases op with
    | newSlab =>
      exact ringNewSlab_bound c st hM hS h
    | allocate length fuel =>
      show (ringAllocate c fuel st length).2.entries.length ≤ _
      unfold ringAllocate
      by_cases he : fastPathEligible c length = true
      · rw [if_pos he]
        rcases hit : ringIter st with ⟨start, st1⟩
        have hst1 : st1.entries = st.entries := by
          have := ringIter_entries st
          rw [hit] at this
          exact this
        simp only
        rcases hte : tryExisting c.minimum_allocation_size st1 length
            (iterIndices st1.entries.length start) with _ | ⟨a, st2⟩
        · show (ringGrowLoop c fuel st1 length).2.entries.length ≤ _
          apply ringGrowLoop_bound c hM hS
          rw [hst1]
          exact h
        · show st2.entries.length ≤ _
          rw [(tryExisting_some _ _ _ _ _ _ hte).1, hst1]
          exact h
      · rw [if_neg he]
        exact h

/-! ## Claim C9: behaviour of the grow-and-retry loop -/

theorem slabAllocate_fresh {S L n : Nat} (h : stripesNeeded S n ≤ L / S) :
    slabAllocate S (slabNew S L) n =
      some (0, stripesNeeded S n * S,
        if L / S - stripesNeeded S n = 0 then ([] : List Span)
        else [⟨stripesNeeded S n * S, L / S - stripesNeeded S n⟩]) := by
  by_cases hz : L / S - stripesNeeded S n = 0 <;>
    simp [slabAllocate, slabNew, findBest, findBestAux, h, hz]

theorem slabAllocate_fresh_none {S L n : Nat} (h : L / S < stripesNeeded S n) :
    slabAllocate S (slabNew S L) n = none := by
  simp [slabAllocate, slabNew, findBest, findBestAux, Nat.not_le.2 h]

theorem ringNewSlab_grow (c : Config) (st : RingState)
    (hguard : (match c.memory_limit with
      | none => true
      | some limit =>
          decide (st.entries.length * c.slab_size < limit)) = true) :
    ringNewSlab c st = (some st.entries.length,
      { st with entries :=
          st.entries ++ [slabNew c.minimum_allocation_size c.slab_size] }) := by
  unfold ringNewSlab
  rw [if_pos hguard]

theorem ringGrowLoop_refuse (c : Config) (fuel : Nat) (st : RingState)
    (length : Nat)
    (hguard : ¬ (match c.memory_limit with
      | none => true
      | some limit =>
          decide (st.entries.length * c.slab_size < limit)) = true) :
    ringGrowLoop c (fuel + 1) st length = (some none, st) ∧
      (ringNewSlab c st).1 = none := by
  have hns : ringNewSlab c st = (none, st) := by
    unfold ringNewSlab
    rw [if_neg hguard]
  constructor
  · rw [ringGrowLoop, hns]
  · rw [hns]

theorem ringGrowLoop_grow_success (c : Config) (fuel : Nat) (st : RingState)
    (length : Nat)
    (hguard : (match c.memory_limit with
      | none => true
      | some limit =>
          decide (st.entries.length * c.slab_size < limit)) = true)
    (hfits : stripesNeeded c.minimum_allocation_size length ≤
      c.slab_size / c.minimum_allocation_size) :
    ∃ st', ringGrowLoop c (fuel + 1) st length =
      (some (some (st.entries.length, 0,
        stripesNeeded c.minimum_allocation_size length *
          c.minimum_allocation_size)), st') ∧
      st'.entries.length = st.entries.length + 1 := by
  rw [ringGrowLoop, ringNewSlab_grow c st hguard]
  simp only
  rw [show ({ st with entries :=
      st.entries ++ [slabNew c.minimum_allocation_size c.slab_size] } :
        RingState).entries[st.entries.length]? =
      some (slabNew c.minimum_allocation_size c.slab_size) from
    getElem?_append_length st.entries [] _]
  simp only
  rw [slabAllocate_fresh hfits]
  refine ⟨_, rfl, ?_⟩
  simp

theorem ringGrowLoop_cap (c : Config) {M : Nat}
    (hM : c.memory_limit = some M) :
    ∀ (k : Nat) (st : RingState) (length : Nat),
      M ≤ (st.entries.length + k) * c.slab_size →
      ∃ out st', ringGrowLoop c (k + 1) st length = (some out, st') ∧
        (out = none → (ringNewSlab c st').1 = none) ∧
        (∀ i off len, out = some (i, off, len) →
          st'.entries.length = i + 1 ∧ st.entries.length ≤ i) := by
  intro k
  induction k with
  | zero =>
    intro st length hk
    rw [Nat.add_zero] at hk
    have hguard : ¬ (match c.memory_limit with
        | none => true
        | some limit =>
            decide (st.entries.length * c.slab_size < limit)) = true := by
      rw [hM]
      simp
      omega
    obtain ⟨heq, hrefuse⟩ := ringGrowLoop_refuse c 0 st length hguard
    refine ⟨none, st, heq, fun _ => hrefuse, ?_⟩
    intro i off len hcon
    exact absurd hcon (by simp)
  | succ k ih =>
    intro st length hk
    by_cases hguard : (match c.memory_limit with
        | none => true
        | some limit =>
            decide (st.entries.length * c.slab_size < limit)) = true
    · rw [ringGrowLoop, ringNewSlab_grow c st hguard]
      simp only
      rw [show ({ st with entries :=
          st.entries ++ [slabNew c.minimum_allocation_size c.slab_size] } :
            RingState).entries[st.entries.length]? =
          some (slabNew c.minimum_allocation_size c.slab_size) from
        getElem?_append_length st.entries [] _]
      simp only
      rcases ha : slabAllocate c.minimum_allocation_size
          (slabNew c.minimum_allocation_size c.slab_size) length
          with _ | ⟨off, len, spans'⟩
      · obtain ⟨out, st', heq, h1, h2⟩ := ih
          { st with entries :=
              st.entries ++ [slabNew c.minimum_allocation_size c.slab_size] }
          length
          (by
            show M ≤ ((st.entries ++
              [slabNew c.minimum_allocation_size c.slab_size]).length + k) *
                c.slab_size
            rw [List.length_append, List.length_cons, List.length_nil]
            rw [show st.entries.length + (0 + 1) + k =
              st.entries.length + (k + 1) by omega]
            exact hk)
        refine ⟨out, st', heq, h1, ?_⟩
        intro i off len hout
        obtain ⟨g1, g2⟩ := h2 i off len hout
        refine ⟨g1, ?_⟩
        have hlen : st.entries.length ≤ (st.entries ++
            [slabNew c.minimum_allocation_size c.slab_size]).length := by
          simp
        exact Nat.le_trans hlen g2
      · refine ⟨some (st.entries.length, off, len), _, rfl, ?_, ?_⟩
        · intro hcon
          exact absurd hcon (by simp)
        · intro i off' len' hout
          rw [Option.some_inj, Prod.mk.injEq, Prod.mk.injEq] at hout
          obtain ⟨h1, _, _⟩ := hout
          subst h1
          constructor
          · show ((st.entries ++
              [slabNew c.minimum_allocation_size c.slab_size]).set
                st.entries.length spans').length = st.entries.length + 1
            rw [List.length_set, List.length_append, List.length_cons,
              List.length_nil]
          · exact Nat.le_refl _
    · obtain ⟨heq, hrefuse⟩ := ringGrowLoop_refuse c (k + 1) st length hguard
      refine ⟨none, st, heq, fun _ => hrefuse, ?_⟩
      intro i off len hcon
      exact absurd hcon (by simp)

theorem ringGrowLoop_terminates (c : Config) (st : RingState) (length : Nat)
    (h : stripesNeeded c.minimum_allocation_size length ≤
        c.slab_size / c.minimum_allocation_size ∨
      ((∃ M, c.memory_limit = some M) ∧ 1 ≤ c.slab_size)) :
    ∃ fuel out st', ringGrowLoop c fuel st length = (some out, st') ∧
      (out = none → (ringNewSlab c st').1 = none) ∧
      (∀ i off len, out = some (i, off, len) →
        st'.entries.length = i + 1 ∧ st.entries.length ≤ i) := by
  rcases h with hfits | ⟨⟨M, hM⟩, hS1⟩
  · by_cases hguard : (match c.memory_limit with
        | none => true
        | some limit =>
            decide (st.entries.length * c.slab_size < limit)) = true
    · obtain ⟨st', heq, hlen⟩ := ringGrowLoop_grow_success c 0 st length hguard hfits
      refine ⟨1, _, st', heq, ?_, ?_⟩
      · intro hcon
        exact absurd hcon (by simp)
      · intro i off len hout
        rw [Option.some_inj, Prod.mk.injEq, Prod.mk.injEq] at hout
        obtain ⟨h1, _, _⟩ := hout
        subst h1
        exact ⟨hlen, Nat.le_refl _⟩
    · obtain ⟨heq, hrefuse⟩ := ringGrowLoop_refuse c 0 st length hguard
      refine ⟨1, none, st, heq, fun _ => hrefuse, ?_⟩
      intro i off len hcon
      exact absurd hcon (by simp)
  · obtain ⟨out, st', heq, h1, h2⟩ := ringGrowLoop_cap c hM M st length
      (by
        have : M * 1 ≤ (st.entries.length + M) * c.slab_size :=
          Nat.mul_le_mul (by omega) hS1
        omega)
    exact ⟨M + 1, out, st', heq, h1, h2⟩

theorem ringGrowLoop_forever (c : Config) (n : Nat)
    (hguard : ∀ len : Nat, (match c.memory_limit with
      | none => true
      | some limit => decide (len * c.slab_size < limit)) = true)
    (hfail : slabAllocate c.minimum_allocation_size
      (slabNew c.minimum_allocation_size c.slab_size) n = none) :
    ∀ (fuel : Nat) (st : RingState), (ringGrowLoop c fuel st n).1 = none := by
  intro fuel
  induction fuel with
  | zero =>
    intro st
    rfl
  | succ k ih =>
    intro st
    rw [ringGrowLoop, ringNewSlab_grow c st (hguard st.entries.length)]
    simp only
    rw [show ({ st with entries :=
        st.entries ++ [slabNew c.minimum_allocation_size c.slab_size] } :
          RingState).entries[st.entries.length]? =
        some (slabNew c.minimum_allocation_size c.slab_size) from
      getElem?_append_length st.entries [] _]
    simp only
    rw [hfail]
    exact ih _

/-! ## Claim C10: iterator indices stay in bounds -/

theorem iterIndicesAux_lt (len start : Nat) (hs : start < len) :
    ∀ (fuel : Nat) (pos : Option Nat),
      (pos = none ∨ ∃ p, pos = some p ∧ p < len) →
      ∀ i ∈ iterIndicesAux len start fuel pos, i < len := by
  intro fuel
  induction fuel with
  | zero =>
    intro pos _ i hi
    rw [iterIndicesAux] at hi
    exact absurd hi (List.not_mem_nil i)
  | succ k ih =>
    intro pos hpos i hi
    rw [iterIndicesAux] at hi
    rcases hpos with hpos | ⟨p, hpos, hp⟩
    · subst hpos
      rw [iterNext] at hi
      rw [if_neg (by omega)] at hi
      rcases List.mem_cons.1 hi with hi | hi
      · subst hi
        exact hs
      · exact ih (some start) (Or.inr ⟨start, rfl, hs⟩) i hi
    · subst hpos
      by_cases hw : (if p + 1 = len then 0 else p + 1) = start
      · have hnext : iterNext len start (some p) = none := by
          rw [iterNext]
          exact if_pos hw
        rw [hnext] at hi
        exact absurd hi (List.not_mem_nil i)
      · have hnext : iterNext len start (some p) =
            some ((if p + 1 = len then 0 else p + 1),
              (if p + 1 = len then 0 else p + 1)) := by
          rw [iterNext]
          exact if_neg hw
        rw [hnext] at hi
        have hlt : (if p + 1 = len then 0 else p + 1) < len := by
          by_cases hpe : p + 1 = len
          · rw [if_pos hpe]
            omega
          · rw [if_neg hpe]
            omega
        rcases List.mem_cons.1 hi with hi | hi
        · subst hi
          exact hlt
        · exact ih _ (Or.inr ⟨_, rfl, hlt⟩) i hi

theorem iterIndices_lt (len start : Nat) (hs : start < len) :
    ∀ i ∈ iterIndices len start, i < len :=
  iterIndicesAux_lt len start hs len none (Or.inl rfl)

theorem iterIndices_empty (start : Nat) : iterIndices 0 start = [] := by
  rfl

theorem stripesNeeded_eq_ceilDiv (S n : Nat) : stripesNeeded S n = n ⌈/⌉ S := by
  unfold stripesNeeded
  rw [Nat.ceilDiv_eq_add_pred_div]
  cases S with
  | zero => simp
  | succ s =>
    congr 1

theorem cycleInv_runRing (c : Config) (ops : List RingOp) :
    cycleInv (runRing c ops) := by
  rw [runRing]
  suffices h : ∀ (l : List RingOp) (st : RingState), cycleInv st →
      cycleInv (l.foldl (ringStep c) st) from h ops ⟨[], 0⟩ (Or.inl rfl)
  intro l
  induction l with
  | nil =>
    intro st h
    exact h
  | cons op rest ih =>
    intro st h
    exact ih _ (ringStep_cycleInv c st op h)

/-! ## The claims -/

/-- Claim C1: after any sequence of `Slab::allocate` and allocation-drop
(free) operations on a slab, the byte ranges of the live slab-backed
allocations are pairwise disjoint, and each is disjoint from every span in
the free-span list of that slab. -/
theorem claim_C1 (S L : Nat) (ops : List SlabOp) :
    (runSlab S L ops).allocs.Pairwise allocDisj ∧
    ∀ a ∈ (runSlab S L ops).allocs, ∀ s ∈ (runSlab S L ops).spans,
      rdisj a.1 a.2 s.offset (s.stripes * S) :=
  ⟨(disjInv_runSlab S L ops).1, (disjInv_runSlab S L ops).2.1⟩

theorem claim_C1_witness :
    (runSlab 16 64 [SlabOp.alloc 20, SlabOp.alloc 5, SlabOp.free 0]).allocs.Pairwise
      allocDisj ∧
    ∀ a ∈ (runSlab 16 64 [SlabOp.alloc 20, SlabOp.alloc 5,
      SlabOp.free 0]).allocs,
      ∀ s ∈ (runSlab 16 64 [SlabOp.alloc 20, SlabOp.alloc 5,
        SlabOp.free 0]).spans,
        rdisj a.1 a.2 s.offset (s.stripes * 16) :=
  claim_C1 16 64 [SlabOp.alloc 20, SlabOp.alloc 5, SlabOp.free 0]

/-- Claim C2 (counterexample to the claim as stated): a zero-length
`allocate` followed by its drop leaves a zero-stripe span in the free list
and breaks the strict offset ordering; a slab whose byte length is below the
stripe size (or a zero stripe size) starts with a zero-stripe span. -/
theorem claim_C2_counterexample :
    (¬ ∀ s ∈ (runSlab 16 64 [SlabOp.alloc 0, SlabOp.free 0]).spans,
        1 ≤ s.stripes) ∧
    (¬ (runSlab 16 64 [SlabOp.alloc 0, SlabOp.free 0]).spans.Pairwise
        (fun a b => a.offset < b.offset)) ∧
    (¬ ∀ s ∈ (runSlab 16 8 []).spans, 1 ≤ s.stripes) ∧
    (¬ ∀ s ∈ (runSlab 0 8 []).spans, 1 ≤ s.stripes) := by
  refine ⟨by decide, by decide, by decide, by decide⟩

/-- Claim C2 (amended): for a slab with stripe size at least 1 and at most
the backing length, after any sequence of `allocate` calls of length at
least 1 and frees, every free span is stripe-aligned, ends within the
backing length and holds at least one stripe, and the list is strictly
ordered by offset, pairwise disjoint, and nowhere contiguous. -/
theorem claim_C2 (S L : Nat) (ops : List SlabOp) (hS : 1 ≤ S) (hSL : S ≤ L)
    (hops : ∀ op ∈ ops, op.positiveRequest) :
    (∀ s ∈ (runSlab S L ops).spans,
      S ∣ s.offset ∧ s.spanEnd S ≤ L ∧ 1 ≤ s.stripes) ∧
    (runSlab S L ops).spans.Pairwise (fun a b => a.offset < b.offset) ∧
    (runSlab S L ops).spans.Pairwise (spanDisj S) ∧
    (runSlab S L ops).spans.Pairwise (fun a b => a.spanEnd S ≠ b.offset) := by
  obtain ⟨⟨hProps, hPw⟩, _, _, _⟩ := slabWF_runSlab S L ops hS hSL hops
  refine ⟨?_, ?_, freeListWF_disj hPw, ?_⟩
  · intro s hs
    obtain ⟨h1, h2, h3⟩ := hProps s hs
    exact ⟨h1, Nat.le_trans h3 (Nat.div_mul_le_self L S), h2⟩
  · refine hPw.imp ?_
    intro a b hab
    have ha : a.offset ≤ a.spanEnd S := by
      unfold Span.spanEnd
      omega
    omega
  · refine hPw.imp ?_
    intro a b hab
    omega

theorem claim_C2_witness :
    1 ≤ 16 ∧ 16 ≤ 64 ∧
    (∀ op ∈ [SlabOp.alloc 20, SlabOp.alloc 5, SlabOp.free 1, SlabOp.alloc 1,
      SlabOp.free 0], op.positiveRequest) ∧
    ((∀ s ∈ (runSlab 16 64 [SlabOp.alloc 20, SlabOp.alloc 5, SlabOp.free 1,
        SlabOp.alloc 1, SlabOp.free 0]).spans,
      16 ∣ s.offset ∧ s.spanEnd 16 ≤ 64 ∧ 1 ≤ s.stripes) ∧
    (runSlab 16 64 [SlabOp.alloc 20, SlabOp.alloc 5, SlabOp.free 1,
      SlabOp.alloc 1, SlabOp.free 0]).spans.Pairwise
        (fun a b => a.offset < b.offset) ∧
    (runSlab 16 64 [SlabOp.alloc 20, SlabOp.alloc 5, SlabOp.free 1,
      SlabOp.alloc 1, SlabOp.free 0]).spans.Pairwise (spanDisj 16) ∧
    (runSlab 16 64 [SlabOp.alloc 20, SlabOp.alloc 5, SlabOp.free 1,
      SlabOp.alloc 1, SlabOp.free 0]).spans.Pairwise
        (fun a b => a.spanEnd 16 ≠ b.offset)) :=
  ⟨by decide, by decide, by decide,
    claim_C2 16 64 _ (by decide) (by decide) (by decide)⟩

/-- Claim C3 (counterexample to the claim as stated): from the well-formed
free list `[{0, 4}]`, a zero-length allocation succeeds (stripe size 16),
and freeing it appends a zero-stripe span instead of restoring the list;
with stripe size 0 the same happens even for a positive request. -/
theorem claim_C3_counterexample :
    (freeListWF 16 64 [⟨0, 4⟩] ∧
      slabAllocate 16 [⟨0, 4⟩] 0 = some (0, 0, [⟨0, 4⟩]) ∧
      freeSpans 16 ⟨0, 0 / 16⟩ [⟨0, 4⟩] ≠ [⟨0, 4⟩]) ∧
    (freeListWF 0 64 [⟨0, 4⟩] ∧
      slabAllocate 0 [⟨0, 4⟩] 1 = some (0, 0, [⟨0, 4⟩]) ∧
      freeSpans 0 ⟨0, 0 / 0⟩ [⟨0, 4⟩] ≠ [⟨0, 4⟩]) := by
  constructor
  · exact ⟨by unfold freeListWF; decide, by decide, by decide⟩
  · exact ⟨by unfold freeListWF; decide, by decide, by decide⟩

/-- Claim C3 (amended): for every slab state satisfying the free-list
invariants and every successful `Slab::allocate` whose computed stripe count
`ceil(n / S)` is at least one, freeing the returned allocation restores the
free-span list to exactly its pre-allocation state. -/
theorem claim_C3 {S bound length off len : Nat} {spans spans' : List Span}
    (hwf : freeListWF S bound spans)
    (hpos : 1 ≤ stripesNeeded S length)
    (ha : slabAllocate S spans length = some (off, len, spans')) :
    freeSpans S ⟨off, len / S⟩ spans' = spans :=
  allocate_free_restores hwf hpos ha

theorem claim_C3_witness :
    freeListWF 16 64 [⟨0, 4⟩] ∧ 1 ≤ stripesNeeded 16 20 ∧
    slabAllocate 16 [⟨0, 4⟩] 20 = some (0, 32, [⟨32, 2⟩]) ∧
    freeSpans 16 ⟨0, 32 / 16⟩ [⟨32, 2⟩] = [⟨0, 4⟩] :=
  ⟨by unfold freeListWF; decide, by decide, by decide,
    claim_C3 (show freeListWF 16 64 [⟨0, 4⟩] from by unfold freeListWF; decide)
      (show 1 ≤ stripesNeeded 16 20 from by decide)
      (show slabAllocate 16 [⟨0, 4⟩] 20 = some (0, 32, [⟨32, 2⟩])
        from by decide)⟩

/-- Claim C4 (counterexample to the claim as stated): with memory cap 3 and
slab size 2, two `new_slab` calls both pass the `len * slab_size < cap`
check, so the ring holds 2 slabs while `floor(3/2) = 1`; with slab size 0
the slab count exceeds `floor(M/0) = 0` after one call. -/
theorem claim_C4_counterexample :
    ¬ ((runRing ⟨1, 2, some 3, 2⟩
        [RingOp.newSlab, RingOp.newSlab]).entries.length ≤ 3 / 2) ∧
    ¬ ((runRing ⟨1, 2, some 3, 0⟩ [RingOp.newSlab]).entries.length ≤ 3 / 0) := by
  refine ⟨by decide, by decide⟩

/-- Claim C4 (amended): for a ring with memory cap `M` and slab size
`S ≥ 1`, after any sequence of `SlabRing::allocate` and `new_slab`
operations the number of slabs never exceeds `ceil(M/S)`. -/
theorem claim_C4 (c : Config) (M : Nat) (ops : List RingOp)
    (hM : c.memory_limit = some M) (hS : 1 ≤ c.slab_size) :
    (runRing c ops).entries.length ≤ (M + c.slab_size - 1) / c.slab_size :=
  ringBound_runRing c hM hS ops

theorem claim_C4_witness :
    (⟨16, 64, some 100, 64⟩ : Config).memory_limit = some 100 ∧
    1 ≤ (⟨16, 64, some 100, 64⟩ : Config).slab_size ∧
    (runRing ⟨16, 64, some 100, 64⟩
      [RingOp.newSlab, RingOp.newSlab, RingOp.newSlab]).entries.length ≤
      (100 + 64 - 1) / 64 :=
  ⟨rfl, by decide, claim_C4 ⟨16, 64, some 100, 64⟩ 100 _ rfl (by decide)⟩

/-- Claim C5: every allocation returned by `Slab::allocate(n)` on a slab
with stripe size `S` has length exactly `ceil(n / S) * S`. -/
theorem claim_C5 {S n off len : Nat} {spans spans' : List Span}
    (ha : slabAllocate S spans n = some (off, len, spans')) :
    len = (n ⌈/⌉ S) * S := by
  obtain ⟨b, s, _, _, _, _, hlen, _, _⟩ := slabAllocate_eq ha
  rw [← stripesNeeded_eq_ceilDiv]
  exact hlen

theorem claim_C5_witness :
    slabAllocate 16 [⟨0, 4⟩] 20 = some (0, 32, [⟨32, 2⟩]) ∧
    (32 : Nat) = (20 ⌈/⌉ 16) * 16 :=
  ⟨by decide,
    claim_C5 (show slabAllocate 16 [⟨0, 4⟩] 20 = some (0, 32, [⟨32, 2⟩])
      by decide)⟩

/-- Claim C6: a request of exactly `maximum_allocation_size` fails the
strict `<` eligibility test, so `SlabRing::allocate` returns `none`
unchanged and `Allocator::allocate` serves it from the process allocator,
while a request of `maximum_allocation_size - 1` passes the test. -/
theorem claim_C6 (c : Config) (fuel : Nat) (st : RingState) :
    ringAllocate c fuel st c.maximum_allocation_size = (some none, st) ∧
    allocatorAllocate c fuel st c.maximum_allocation_size =
      some (Allocation.global c.maximum_allocation_size, st) ∧
    fastPathEligible c c.maximum_allocation_size = false ∧
    (1 ≤ c.maximum_allocation_size →
      fastPathEligible c (c.maximum_allocation_size - 1) = true) := by
  have hne : fastPathEligible c c.maximum_allocation_size = false := by
    unfold fastPathEligible
    simp
  have hra : ringAllocate c fuel st c.maximum_allocation_size =
      (some none, st) := by
    unfold ringAllocate
    rw [if_neg (by rw [hne]; simp)]
  refine ⟨hra, ?_, hne, ?_⟩
  · unfold allocatorAllocate
    rw [hra]
  · intro h1
    unfold fastPathEligible
    simp
    omega

theorem claim_C6_witness :
    1 ≤ Config.base.maximum_allocation_size ∧
    fastPathEligible Config.base
      (Config.base.maximum_allocation_size - 1) = true ∧
    ringAllocate Config.base 0 ⟨[], 0⟩
      Config.base.maximum_allocation_size = (some none, ⟨[], 0⟩) :=
  ⟨by decide, (claim_C6 Config.base 0 ⟨[], 0⟩).2.2.2 (by decide),
    (claim_C6 Config.base 0 ⟨[], 0⟩).1⟩

/-- Claim C7: when `Slab::allocate` succeeds, the span it consumed is the
first span in list order attaining the minimal residual `stripes - needed`
among the fitting spans (best-fit, ties to the first encountered, a perfect
fit ending the scan early), the returned allocation covers the front of that
span, and the offset of that span is advanced and its stripe count decremented,
the span being removed when it becomes empty. -/
theorem claim_C7 {S length off len : Nat} {spans spans' : List Span}
    (ha : slabAllocate S spans length = some (off, len, spans')) :
    ∃ b s, spans[b.index]? = some s ∧
      BestSpec (stripesNeeded S length) spans b ∧
      off = s.offset ∧ len = stripesNeeded S length * S ∧
      (s.stripes - stripesNeeded S length = 0 →
        spans' = spans.eraseIdx b.index) ∧
      (s.stripes - stripesNeeded S length ≠ 0 →
        spans' = spans.set b.index
          ⟨s.offset + stripesNeeded S length * S,
           s.stripes - stripesNeeded S length⟩) := by
  obtain ⟨b, s, _, hsg, hbs, hoff, hlen, he, hs⟩ := slabAllocate_eq ha
  exact ⟨b, s, hsg, hbs, hoff, hlen, he, hs⟩

theorem claim_C7_witness :
    slabAllocate 16 [⟨0, 1⟩, ⟨32, 2⟩] 32 = some (32, 32, [⟨0, 1⟩]) ∧
    (∃ b s, ([⟨0, 1⟩, ⟨32, 2⟩] : List Span)[b.index]? = some s ∧
      BestSpec (stripesNeeded 16 32) [⟨0, 1⟩, ⟨32, 2⟩] b ∧
      (32 : Nat) = s.offset ∧ (32 : Nat) = stripesNeeded 16 32 * 16 ∧
      (s.stripes - stripesNeeded 16 32 = 0 →
        [⟨0, 1⟩] = ([⟨0, 1⟩, ⟨32, 2⟩] : List Span).eraseIdx b.index) ∧
      (s.stripes - stripesNeeded 16 32 ≠ 0 →
        [⟨0, 1⟩] = ([⟨0, 1⟩, ⟨32, 2⟩] : List Span).set b.index
          ⟨s.offset + stripesNeeded 16 32 * 16,
           s.stripes - stripesNeeded 16 32⟩)) :=
  ⟨by decide,
    claim_C7 (show slabAllocate 16 [⟨0, 1⟩, ⟨32, 2⟩] 32 =
      some (32, 32, [⟨0, 1⟩]) by decide)⟩

/-- Claim C8: `Allocator::allocate` never fails: whenever the loop in the ring
completes, the allocator returns the allocation from the ring if the ring served
the request and otherwise a process-allocator-backed allocation of exactly
the requested length; no ring outcome is surfaced to the caller. -/
theorem claim_C8 (c : Config) (fuel : Nat) (st : RingState) (n : Nat) :
    ((ringAllocate c fuel st n).1.isSome = true →
      (allocatorAllocate c fuel st n).isSome = true) ∧
    (∀ i off len st2,
      ringAllocate c fuel st n = (some (some (i, off, len)), st2) →
      allocatorAllocate c fuel st n =
        some (Allocation.slabBacked i off len, st2)) ∧
    (∀ st2, ringAllocate c fuel st n = (some none, st2) →
      allocatorAllocate c fuel st n = some (Allocation.global n, st2) ∧
      (Allocation.global n).len = n) := by
  refine ⟨?_, ?_, ?_⟩
  · intro hs
    rcases hra : ringAllocate c fuel st n with ⟨o, st2⟩
    rw [hra] at hs
    unfold allocatorAllocate
    rw [hra]
    cases o with
    | none => exact absurd hs (by simp)
    | some o2 =>
      cases o2 with
      | none => rfl
      | some trip =>
        rcases trip with ⟨i, off, len⟩
        rfl
  · intro i off len st2 heq
    unfold allocatorAllocate
    rw [heq]
  · intro st2 heq
    unfold allocatorAllocate
    rw [heq]
    exact ⟨rfl, rfl⟩

theorem claim_C8_witness :
    ringAllocate Config.base 1 ⟨[], 0⟩ 5 =
      (some (some (0, 0, 16)), ⟨[[⟨16, 16383⟩]], 0⟩) ∧
    allocatorAllocate Config.base 1 ⟨[], 0⟩ 5 =
      some (Allocation.slabBacked 0 0 16, ⟨[[⟨16, 16383⟩]], 0⟩) :=
  ⟨by decide,
    (claim_C8 Config.base 1 ⟨[], 0⟩ 5).2.1 0 0 16 ⟨[[⟨16, 16383⟩]], 0⟩
      (by decide)⟩

/-- Claim C9 (counterexample to the claim as stated): with stripe size 16,
slab size 18 and no memory cap, the request 17 is below the fast-path
maximum 18 but no fresh slab can hold its 2 stripes, so the grow-and-retry
loop never returns; with a cap but slab size 0 the cap check never fails and
the loop also runs forever. -/
theorem claim_C9_counterexample :
    ¬ ringAllocateTerminates ⟨16, 18, none, 18⟩ ⟨[], 0⟩ 17 ∧
    (17 < 18) ∧
    ¬ ringAllocateTerminates ⟨16, 18, some 100, 0⟩ ⟨[], 0⟩ 17 := by
  refine ⟨?_, by omega, ?_⟩
  · rintro ⟨fuel, hf⟩
    have heq : ringAllocate ⟨16, 18, none, 18⟩ fuel ⟨[], 0⟩ 17 =
        ringGrowLoop ⟨16, 18, none, 18⟩ fuel ⟨[], 0⟩ 17 := rfl
    rw [heq, ringGrowLoop_forever ⟨16, 18, none, 18⟩ 17
      (fun len => rfl) (by decide) fuel ⟨[], 0⟩] at hf
    exact absurd hf (by simp)
  · rintro ⟨fuel, hf⟩
    have heq : ringAllocate ⟨16, 18, some 100, 0⟩ fuel ⟨[], 0⟩ 17 =
        ringGrowLoop ⟨16, 18, some 100, 0⟩ fuel ⟨[], 0⟩ 17 := rfl
    rw [heq, ringGrowLoop_forever ⟨16, 18, some 100, 0⟩ 17
      (fun len => by simp) (by decide) fuel ⟨[], 0⟩] at hf
    exact absurd hf (by simp)

/-- Claim C9 (amended): for every request length below the fast-path
maximum, provided a fresh slab can satisfy the request
(`ceil(n/S) ≤ floor(slabSize/S)`) or a memory cap with positive slab size is
configured, the grow-and-retry loop of `SlabRing::allocate` returns: either
an allocation obtained from the newly created slab (the last slab of the
list), or `none` exactly when slab creation is refused because the memory
cap is reached. -/
theorem claim_C9 (c : Config) (st : RingState) (length : Nat)
    (helig : fastPathEligible c length = true)
    (h : stripesNeeded c.minimum_allocation_size length ≤
        c.slab_size / c.minimum_allocation_size ∨
      ((∃ M, c.memory_limit = some M) ∧ 1 ≤ c.slab_size)) :
    ∃ fuel out st', ringGrowLoop c fuel st length = (some out, st') ∧
      (out = none → (ringNewSlab c st').1 = none) ∧
      (∀ i off len, out = some (i, off, len) →
        st'.entries.length = i + 1 ∧ st.entries.length ≤ i) :=
  ringGrowLoop_terminates c st length h

theorem claim_C9_witness :
    fastPathEligible ⟨16, 64, some 128, 64⟩ 16 = true ∧
    (stripesNeeded 16 16 ≤ 64 / 16 ∨
      ((∃ M, (some 128 : Option Nat) = some M) ∧ (1 : Nat) ≤ 64)) ∧
    (∃ fuel out st', ringGrowLoop ⟨16, 64, some 128, 64⟩ fuel ⟨[], 0⟩ 16 =
        (some out, st') ∧
      (out = none → (ringNewSlab ⟨16, 64, some 128, 64⟩ st').1 = none) ∧
      (∀ i off len, out = some (i, off, len) →
        st'.entries.length = i + 1 ∧ (⟨[], 0⟩ : RingState).entries.length ≤ i)) :=
  ⟨by decide, Or.inl (by decide),
    claim_C9 ⟨16, 64, some 128, 64⟩ ⟨[], 0⟩ 16 (by decide)
      (Or.inl (by decide))⟩

/-- Claim C10: the start index chosen by `SlabRing::iter` is 0 on an empty
slab list and strictly below the list length otherwise (the cursor rotates
backwards by one, wrapping from 0 to `len - 1`, and the list never shrinks),
and every index the iterator emits to read the slab list is in bounds. -/
theorem claim_C10 (c : Config) (ops : List RingOp) :
    ((runRing c ops).entries.length = 0 →
      (ringIter (runRing c ops)).1 = 0) ∧
    (1 ≤ (runRing c ops).entries.length →
      (ringIter (runRing c ops)).1 < (runRing c ops).entries.length) ∧
    (∀ i ∈ iterIndices (runRing c ops).entries.length
        (ringIter (runRing c ops)).1, i < (runRing c ops).entries.length) ∧
    (∀ op : RingOp, (runRing c ops).entries.length ≤
      (ringStep c (runRing c ops) op).entries.length) := by
  have hinv := cycleInv_runRing c ops
  refine ⟨fun h => ringIter_start_empty _ h,
    fun h => ringIter_start_lt _ hinv h, ?_,
    fun op => ringStep_mono c _ op⟩
  rcases Nat.eq_zero_or_pos (runRing c ops).entries.length with h0 | h0
  · rw [h0]
    intro i hi
    rw [iterIndices_empty] at hi
    exact absurd hi (List.not_mem_nil i)
  · exact iterIndices_lt _ _ (ringIter_start_lt _ hinv h0)

theorem claim_C10_witness :
    1 ≤ (runRing Config.base [RingOp.newSlab]).entries.length ∧
    (ringIter (runRing Config.base [RingOp.newSlab])).1 <
      (runRing Config.base [RingOp.newSlab]).entries.length :=
  ⟨by decide, (claim_C10 Config.base [RingOp.newSlab]).2.1 (by decide)⟩

end Rebytes
